import Mathlib

/-!
# Patient chaincode (`patient.go`): a shallow embedding

The chaincode of `src/patient.go` keeps one JSON record per patient in the
ledger of the hosting platform.  This file embeds

* Go strings and byte slices as lists of bytes (`Bytes`);
* the two ledger primitives of the shim, `GetState` and `PutState`, as
  operations on an explicit `Stub` value that carries the key/value state, the
  failure behaviour of the platform and the history of primitive calls;
* the library functions the chaincode calls: `strconv.Atoi`, `strconv.Itoa`,
  `json.Unmarshal` and `json.Marshal` (the latter two specialised to the
  `Patient` struct, the only type they are used at);
* the chaincode functions themselves, `create_patient`, `save_changes`,
  `Init`, `Invoke`, `Query`, `getPatient`, `getPatientRecord`, with the names
  of the source.

What is not modelled: text printed with `fmt.Printf` and `logger.Debug`
(standard output is not part of any result), and the contents of the error
values of the shim primitives (the chaincode only tests them against `nil`).
-/

namespace PatientChaincode

/-! ## Go strings -/

/-- A Go `string` or `[]byte`: a finite sequence of bytes. -/
abbrev Bytes := List UInt8

/-- The bytes of an ASCII literal of the source text.  It is applied to ASCII
literals only, where a character and its byte coincide. -/
def goString (s : String) : Bytes := s.toList.map (fun c => UInt8.ofNat c.toNat)

/-! ## `strconv` -/

/-- The width of the Go type `int` (a 64-bit platform). -/
def intSize : Nat := 64

/-- The largest value of type `int`. -/
def maxInt : Int := 2 ^ (intSize - 1) - 1

/-- The smallest value of type `int`. -/
def minInt : Int := -(2 ^ (intSize - 1))

/-- The outcome of the digit loop of `strconv.ParseUint`. -/
inductive NumResult where
  | ok (n : Nat)
  | syntaxErr
  | rangeErr
  deriving DecidableEq, Repr

/-- The loop of `strconv.ParseUint(s, 10, bitSize)` over the bytes of `s`,
started with accumulator `n`: a byte outside `0..9` is a syntax error;
`n >= cutoff` (with `cutoff = maxUint64/10 + 1`) or `n*10 + d > maxVal` is a
range error.  The test `n1 < n` of the source detects wrap-around of the 64-bit
sum, which is the condition `n*10 + d >= 2^64` on the exact value. -/
def parseUintLoop (bitSize : Nat) : Bytes → Nat → NumResult
  | [], n => .ok n
  | c :: cs, n =>
    if 48 ≤ c.toNat ∧ c.toNat ≤ 57 then
      if n ≥ (2 ^ 64 - 1) / 10 + 1 then .rangeErr
      else
        let n1 := n * 10 + (c.toNat - 48)
        if n1 ≥ 2 ^ 64 ∨ n1 > 2 ^ bitSize - 1 then .rangeErr
        else parseUintLoop bitSize cs n1
    else .syntaxErr

/-- The function `strconv.ParseUint(s, 10, bitSize)` for `1 ≤ bitSize ≤ 64`. -/
def ParseUint (s : Bytes) (bitSize : Nat) : NumResult :=
  if s = [] then .syntaxErr else parseUintLoop bitSize s 0

/-- The function `strconv.ParseInt(s, 10, bitSize)` for `1 ≤ bitSize ≤ 64`: an
optional sign, then `ParseUint`, then the range check against
`cutoff = 1 << (bitSize-1)`.  The result is `none` when the source returns an
error (syntax or range). -/
def ParseInt (s : Bytes) (bitSize : Nat) : Option Int :=
  match s with
  | [] => none
  | c :: cs =>
    let neg := c.toNat = 45
    let body := if c.toNat = 43 ∨ c.toNat = 45 then cs else c :: cs
    match ParseUint body bitSize with
    | .syntaxErr => none
    | .rangeErr => none
    | .ok un =>
      let cutoff := 2 ^ (bitSize - 1)
      if ¬ neg ∧ un ≥ cutoff then none
      else if neg ∧ un > cutoff then none
      else some (if neg then -(un : Int) else (un : Int))

/-- The function `strconv.Atoi`: `ParseInt(s, 10, 0)`, that is, at the width of
`int`.  (The fast path of recent library versions for short inputs computes
the same result.) -/
def Atoi (s : Bytes) : Option Int := ParseInt s intSize

/-- The decimal digits of `n`, most significant first; `fuel` bounds the
number of digits. -/
def formatDigits : Nat → Nat → Bytes → Bytes
  | 0, _, acc => acc
  | fuel + 1, n, acc =>
    let acc1 := UInt8.ofNat (48 + n % 10) :: acc
    if n / 10 = 0 then acc1 else formatDigits fuel (n / 10) acc1

/-- The function `strconv.FormatUint(n, 10)`. -/
def FormatUint (n : Nat) : Bytes := formatDigits (n + 1) n []

/-- The function `strconv.Itoa`: a minus sign for a negative number, then the
decimal digits of the magnitude. -/
def Itoa (i : Int) : Bytes :=
  if i < 0 then 45 :: FormatUint i.natAbs else FormatUint i.natAbs

/-! ## `unicode/utf8` -/

/-- The rune `utf8.RuneError`, U+FFFD. -/
def runeError : Nat := 0xFFFD

/-- The test `lo <= b && b <= hi` on a byte. -/
def inRange (b : UInt8) (lo hi : Nat) : Bool := decide (lo ≤ b.toNat) && decide (b.toNat ≤ hi)

/-- The function `utf8.DecodeRune`: the first rune of `p` and its width in
bytes; `(RuneError, 0)` on empty input and `(RuneError, 1)` on an encoding
that is invalid (a wrong lead or continuation byte, an overlong form, a
surrogate, a value above U+10FFFF, or a truncated sequence). -/
def DecodeRune (p : Bytes) : Nat × Nat :=
  match p with
  | [] => (runeError, 0)
  | b0 :: rest =>
    let x := b0.toNat
    if x < 0x80 then (x, 1)
    else if 0xC2 ≤ x ∧ x ≤ 0xDF then
      match rest with
      | b1 :: _ =>
        if inRange b1 0x80 0xBF then ((x % 32) * 64 + b1.toNat % 64, 2) else (runeError, 1)
      | _ => (runeError, 1)
    else if 0xE0 ≤ x ∧ x ≤ 0xEF then
      let lo := if x = 0xE0 then 0xA0 else 0x80
      let hi := if x = 0xED then 0x9F else 0xBF
      match rest with
      | b1 :: b2 :: _ =>
        if inRange b1 lo hi && inRange b2 0x80 0xBF then
          (((x % 16) * 64 + b1.toNat % 64) * 64 + b2.toNat % 64, 3)
        else (runeError, 1)
      | _ => (runeError, 1)
    else if 0xF0 ≤ x ∧ x ≤ 0xF4 then
      let lo := if x = 0xF0 then 0x90 else 0x80
      let hi := if x = 0xF4 then 0x8F else 0xBF
      match rest with
      | b1 :: b2 :: b3 :: _ =>
        if inRange b1 lo hi && inRange b2 0x80 0xBF && inRange b3 0x80 0xBF then
          ((((x % 8) * 64 + b1.toNat % 64) * 64 + b2.toNat % 64) * 64 + b3.toNat % 64, 4)
        else (runeError, 1)
      | _ => (runeError, 1)
    else (runeError, 1)

/-- The function `utf8.EncodeRune` (the bytes it writes): the UTF-8 encoding of
`r`, and that of U+FFFD for a surrogate or a value above U+10FFFF. -/
def EncodeRune (r : Nat) : Bytes :=
  if r ≤ 0x7F then [UInt8.ofNat r]
  else if r ≤ 0x7FF then [UInt8.ofNat (0xC0 + r / 64), UInt8.ofNat (0x80 + r % 64)]
  else if r > 0x10FFFF ∨ (0xD800 ≤ r ∧ r ≤ 0xDFFF) then [0xEF, 0xBF, 0xBD]
  else if r ≤ 0xFFFF then
    [UInt8.ofNat (0xE0 + r / 4096), UInt8.ofNat (0x80 + r / 64 % 64), UInt8.ofNat (0x80 + r % 64)]
  else
    [UInt8.ofNat (0xF0 + r / 262144), UInt8.ofNat (0x80 + r / 4096 % 64),
      UInt8.ofNat (0x80 + r / 64 % 64), UInt8.ofNat (0x80 + r % 64)]

/-! ## `encoding/json`: the scanner and the decoder

The library is modelled as it behaves in current Go releases: the scanner
accepts the JSON grammar with a nesting limit, and the decoder, for a struct,
takes `null` and unknown members without error, matches keys to fields exactly
or up to case, lets a later duplicate overwrite an earlier one, and replaces
invalid UTF-8 and unpaired surrogate escapes in strings by U+FFFD. -/

/-- A JSON value as the decoder sees it: a number keeps its literal text, a
string and an object key hold the unquoted bytes, an object keeps its members
in input order, duplicates included. -/
inductive JValue where
  | null
  | bool (b : Bool)
  | number (lit : Bytes)
  | string (s : Bytes)
  | array (items : List JValue)
  | object (members : List (Bytes × JValue))

/-- The nesting limit of the scanner (`maxNestingDepth`). -/
def maxNestingDepth : Nat := 10000

/-- The function `isSpace` of the scanner: space, tab, carriage return, line
feed. -/
def isSpace (c : UInt8) : Bool := c = 0x20 || c = 0x09 || c = 0x0D || c = 0x0A

/-- Skips JSON white space. -/
def skipSpace (s : Bytes) : Bytes := s.dropWhile isSpace

/-- A decimal digit `0..9`. -/
def isDigit (c : UInt8) : Bool := decide (48 ≤ c.toNat) && decide (c.toNat ≤ 57)

/-- The value of a hexadecimal digit, as in `getu4`. -/
def hexVal (c : UInt8) : Option Nat :=
  let x := c.toNat
  if 48 ≤ x ∧ x ≤ 57 then some (x - 48)
  else if 97 ≤ x ∧ x ≤ 102 then some (x - 97 + 10)
  else if 65 ≤ x ∧ x ≤ 70 then some (x - 65 + 10)
  else none

/-- The function `getu4`: the rune of a leading `\uXXXX` escape, `none` (the
source returns `-1`) when `s` does not start with one. -/
def getu4 (s : Bytes) : Option Nat :=
  match s with
  | 0x5C :: 0x75 :: a :: b :: c :: d :: _ =>
    match hexVal a, hexVal b, hexVal c, hexVal d with
    | some x, some y, some z, some w => some (((x * 16 + y) * 16 + z) * 16 + w)
    | _, _, _, _ => none
  | _ => none

/-- The byte a single-character escape stands for: the table of `unquoteBytes`
for the characters the scanner accepts after a backslash (other than `u`). -/
def simpleEscape (e : UInt8) : Option UInt8 :=
  if e = 0x22 then some 0x22            -- \"
  else if e = 0x5C then some 0x5C       -- \\
  else if e = 0x2F then some 0x2F       -- \/
  else if e = 0x62 then some 0x08       -- \b
  else if e = 0x66 then some 0x0C       -- \f
  else if e = 0x6E then some 0x0A       -- \n
  else if e = 0x72 then some 0x0D       -- \r
  else if e = 0x74 then some 0x09       -- \t
  else none

/-- Puts `out` in front of the bytes a continuation produced. -/
def emit (out : Bytes) (k : Option (Bytes × Bytes)) : Option (Bytes × Bytes) :=
  match k with
  | none => none
  | some (o, rest) => some (out ++ o, rest)

/-- Scans a string literal whose opening quote has been consumed and unquotes
it (`stateInString` of the scanner together with `unquoteBytes`): the result is
the unquoted text and the input after the closing quote, `none` on a syntax
error.  A byte below 0x20 is rejected; a backslash is followed by one of
`"\/bfnrt` or by `u` and four hexadecimal digits; a `\u` escape of a high
surrogate followed by a `\u` escape of a low surrogate is one rune, any other
surrogate escape is U+FFFD; bytes from 0x80 on are decoded with `DecodeRune` and
written back with `EncodeRune`, which replaces invalid UTF-8 by U+FFFD. -/
def scanString : Nat → Bytes → Option (Bytes × Bytes)
  | 0, _ => none
  | fuel + 1, s =>
    match s with
    | [] => none
    | c :: r =>
      if c = 0x22 then some ([], r)
      else if c = 0x5C then
        match r with
        | [] => none
        | e :: r1 =>
          if e = 0x75 then
            match getu4 s with
            | none => none
            | some rr =>
              let r2 := r1.drop 4
              if 0xD800 ≤ rr ∧ rr < 0xE000 then
                match getu4 r2 with
                | some rr1 =>
                  if rr < 0xDC00 ∧ 0xDC00 ≤ rr1 ∧ rr1 < 0xE000 then
                    emit (EncodeRune ((rr - 0xD800) * 1024 + (rr1 - 0xDC00) + 0x10000))
                      (scanString fuel (r2.drop 6))
                  else emit (EncodeRune runeError) (scanString fuel r2)
                | none => emit (EncodeRune runeError) (scanString fuel r2)
              else emit (EncodeRune rr) (scanString fuel r2)
          else
            match simpleEscape e with
            | none => none
            | some b => emit [b] (scanString fuel r1)
      else if c.toNat < 0x20 then none
      else if c.toNat < 0x80 then emit [c] (scanString fuel r)
      else
        let d := DecodeRune s
        emit (EncodeRune d.1) (scanString fuel (s.drop d.2))

/-- Scans the string literal that starts after an opening quote. -/
def parseString (s : Bytes) : Option (Bytes × Bytes) := scanString s.length s

/-- The optional minus sign of a number literal (`stateNeg`). -/
def scanSign (s : Bytes) : Bytes × Bytes :=
  match s with
  | c :: r => if c = 0x2D then ([c], r) else ([], s)
  | [] => ([], s)

/-- The integer part of a number literal (`state0`, `state1`): `0`, or a
non-zero digit followed by digits. -/
def scanInt (s : Bytes) : Option (Bytes × Bytes) :=
  match s with
  | [] => none
  | c :: r =>
    if c = 0x30 then some ([c], r)
    else if isDigit c then some (c :: (r.span isDigit).1, (r.span isDigit).2)
    else none

/-- The optional fraction of a number literal (`stateDot`, `stateDot0`): a
point and at least one digit. -/
def scanFrac (s : Bytes) : Option (Bytes × Bytes) :=
  match s with
  | c :: r =>
    if c = 0x2E then
      if (r.span isDigit).1 = [] then none
      else some (c :: (r.span isDigit).1, (r.span isDigit).2)
    else some ([], s)
  | [] => some ([], s)

/-- The optional exponent of a number literal (`stateE`, `stateESign`,
`stateE0`): `e` or `E`, an optional sign, and at least one digit. -/
def scanExp (s : Bytes) : Option (Bytes × Bytes) :=
  match s with
  | e :: r =>
    if e = 0x65 ∨ e = 0x45 then
      let sg : Bytes × Bytes :=
        match r with
        | g :: r1 => if g = 0x2B ∨ g = 0x2D then ([g], r1) else ([], r)
        | [] => ([], r)
      if (sg.2.span isDigit).1 = [] then none
      else some (e :: sg.1 ++ (sg.2.span isDigit).1, (sg.2.span isDigit).2)
    else some ([], s)
  | [] => some ([], s)

/-- Scans a number literal: an optional minus sign, the integer part, an
optional fraction and an optional exponent.  The result is the literal and the
input after it. -/
def scanNumber (s : Bytes) : Option (Bytes × Bytes) :=
  match scanInt (scanSign s).2 with
  | none => none
  | some (ip, r1) =>
    match scanFrac r1 with
    | none => none
    | some (fp, r2) =>
      match scanExp r2 with
      | none => none
      | some (ep, r3) => some ((scanSign s).1 ++ ip ++ fp ++ ep, r3)

/-- Strips the literal `lit` from the front of `s`. -/
def stripLiteral (lit : Bytes) (s : Bytes) : Option Bytes :=
  if lit.isPrefixOf s then some (s.drop lit.length) else none

mutual
/-- Parses one JSON value at the front of `s` (white space before it already
skipped), inside `depth` enclosing arrays and objects. -/
def parseValue : Nat → Nat → Bytes → Option (JValue × Bytes)
  | 0, _, _ => none
  | fuel + 1, depth, s =>
    match s with
    | [] => none
    | c :: r =>
      if c = 0x7B then
        if depth + 1 > maxNestingDepth then none
        else
          match skipSpace r with
          | [] => none
          | c1 :: r1 =>
            if c1 = 0x7D then some (.object [], r1)
            else
              match parseMembers fuel (depth + 1) (c1 :: r1) with
              | none => none
              | some (ms, rest) => some (.object ms, rest)
      else if c = 0x5B then
        if depth + 1 > maxNestingDepth then none
        else
          match skipSpace r with
          | [] => none
          | c1 :: r1 =>
            if c1 = 0x5D then some (.array [], r1)
            else
              match parseElements fuel (depth + 1) (c1 :: r1) with
              | none => none
              | some (vs, rest) => some (.array vs, rest)
      else if c = 0x22 then
        match parseString r with
        | none => none
        | some (str, rest) => some (.string str, rest)
      else if c = 0x74 then
        match stripLiteral (goString "true") s with
        | none => none
        | some rest => some (.bool true, rest)
      else if c = 0x66 then
        match stripLiteral (goString "false") s with
        | none => none
        | some rest => some (.bool false, rest)
      else if c = 0x6E then
        match stripLiteral (goString "null") s with
        | none => none
        | some rest => some (.null, rest)
      else
        match scanNumber s with
        | none => none
        | some (lit, rest) => some (.number lit, rest)
/-- Parses the members of a non-empty object up to and including the closing
brace; `s` starts at the first key. -/
def parseMembers : Nat → Nat → Bytes → Option (List (Bytes × JValue) × Bytes)
  | 0, _, _ => none
  | fuel + 1, depth, s =>
    match s with
    | [] => none
    | q :: r =>
      if q = 0x22 then
        match parseString r with
        | none => none
        | some (key, r1) =>
          match skipSpace r1 with
          | [] => none
          | c2 :: r2 =>
            if c2 = 0x3A then
              match parseValue fuel depth (skipSpace r2) with
              | none => none
              | some (v, r3) =>
                match skipSpace r3 with
                | [] => none
                | c4 :: r4 =>
                  if c4 = 0x2C then
                    match parseMembers fuel depth (skipSpace r4) with
                    | none => none
                    | some (ms, r5) => some ((key, v) :: ms, r5)
                  else if c4 = 0x7D then some ([(key, v)], r4)
                  else none
            else none
      else none
/-- Parses the elements of a non-empty array up to and including the closing
bracket; `s` starts at the first element. -/
def parseElements : Nat → Nat → Bytes → Option (List JValue × Bytes)
  | 0, _, _ => none
  | fuel + 1, depth, s =>
    match parseValue fuel depth s with
    | none => none
    | some (v, r1) =>
      match skipSpace r1 with
      | [] => none
      | c2 :: r2 =>
        if c2 = 0x2C then
          match parseElements fuel depth (skipSpace r2) with
          | none => none
          | some (vs, r3) => some (v :: vs, r3)
        else if c2 = 0x5D then some ([v], r2)
        else none
end

/-- The function `checkValid` together with the value it scanned: `data` must
be one JSON value surrounded by optional white space.  Along a chain of nested
calls the parser never makes more calls than it has consumed bytes, plus one,
so `data.length + 1` steps suffice. -/
def parseJSON (data : Bytes) : Option JValue :=
  match parseValue (data.length + 1) 0 (skipSpace data) with
  | none => none
  | some (v, rest) => if skipSpace rest = [] then some v else none

/-- The Go struct `Patient`, with the JSON names `patientId`, `age`, `gender`,
`illness` given by its field tags. -/
structure Patient where
  PatientId : Bytes
  Age : Int
  Gender : Bytes
  Illness : Bytes
  deriving DecidableEq, Repr

/-- The zero value of `Patient` (what `var p Patient` declares). -/
def Patient.zero : Patient := ⟨[], 0, [], []⟩

/-- The fields of `Patient`. -/
inductive Field where
  | patientId
  | age
  | gender
  | illness
  deriving DecidableEq, Repr

/-- The JSON name of each field, in declaration order. -/
def fieldNames : List (Bytes × Field) :=
  [(goString "patientId", .patientId), (goString "age", .age),
   (goString "gender", .gender), (goString "illness", .illness)]

/-- The function `foldRune` on the runes that matter for ASCII field names:
U+017F (long s) folds to `S` and U+212A (Kelvin sign) to `K`, the only runes
outside ASCII whose fold is an ASCII letter.  Every other rune outside ASCII is
left as it is: its fold is outside ASCII too, so it never takes part in a
match with a field name. -/
def foldRune (r : Nat) : Nat :=
  if r = 0x17F then 0x53 else if r = 0x212A then 0x4B else r

/-- The loop of `appendFoldedName`: ASCII letters to upper case, other runes
through `foldRune`. -/
def foldLoop : Nat → Bytes → Bytes
  | 0, _ => []
  | fuel + 1, s =>
    match s with
    | [] => []
    | c :: r =>
      if c.toNat < 0x80 then
        (if 97 ≤ c.toNat ∧ c.toNat ≤ 122 then UInt8.ofNat (c.toNat - 32) else c) :: foldLoop fuel r
      else
        let d := DecodeRune s
        EncodeRune (foldRune d.1) ++ foldLoop fuel (s.drop d.2)

/-- The function `foldName`: the case-folded form of an object key. -/
def foldName (s : Bytes) : Bytes := foldLoop s.length s

/-- The field an object key addresses: the field with exactly this name,
otherwise the field whose name has the same case-folded form. -/
def findField (key : Bytes) : Option Field :=
  match fieldNames.find? (fun nf => decide (nf.1 = key)) with
  | some nf => some nf.2
  | none =>
    match fieldNames.find? (fun nf => decide (foldName nf.1 = foldName key)) with
    | some nf => some nf.2
    | none => none

/-- The two kinds of error `json.Unmarshal` returns here. -/
inductive JsonError where
  | syntaxError
  | unmarshalTypeError
  deriving DecidableEq, Repr

/-- Stores a JSON value into a field (`literalStore`, and `object` or `array`
on a field that is neither): `null` leaves the field as it is; a string goes
into a string field; a number goes into the `int` field when
`strconv.ParseInt(lit, 10, 64)` accepts its literal and the value fits `int`;
everything else records an `UnmarshalTypeError` (the flag) and leaves the field
as it is. -/
def storeField (p : Patient) (f : Field) (v : JValue) : Patient × Bool :=
  match v with
  | .null => (p, false)
  | .string s =>
    match f with
    | .patientId => ({ p with PatientId := s }, false)
    | .gender => ({ p with Gender := s }, false)
    | .illness => ({ p with Illness := s }, false)
    | .age => (p, true)
  | .number lit =>
    match f with
    | .age =>
      match ParseInt lit 64 with
      | none => (p, true)
      | some n => if n < minInt ∨ maxInt < n then (p, true) else ({ p with Age := n }, false)
    | _ => (p, true)
  | _ => (p, true)

/-- The loop of `(*decodeState).object` on a struct: every member whose key
addresses a field is stored into it, in input order (a later duplicate
overwrites an earlier one); other members are skipped; a type error does not
stop the loop.  The flag tells whether a type error was recorded. -/
def decodeMembers : Patient → List (Bytes × JValue) → Patient × Bool
  | p, [] => (p, false)
  | p, (key, v) :: ms =>
    match findField key with
    | none => decodeMembers p ms
    | some f =>
      let r := storeField p f v
      let r2 := decodeMembers r.1 ms
      (r2.1, r.2 || r2.2)

/-- The function `json.Unmarshal(data, &p)` for `p` of type `Patient`: the
updated struct and the error.  Invalid JSON is a `SyntaxError` and leaves `p`
untouched; `null` is accepted and changes nothing; an object is decoded member
by member; any other value is an `UnmarshalTypeError`. -/
def Unmarshal (data : Bytes) (p : Patient) : Patient × Option JsonError :=
  match parseJSON data with
  | none => (p, some .syntaxError)
  | some v =>
    match v with
    | .null => (p, none)
    | .object ms =>
      let r := decodeMembers p ms
      (r.1, if r.2 then some .unmarshalTypeError else none)
    | _ => (p, some .unmarshalTypeError)

/-! ## `encoding/json`: the encoder -/

/-- The digit of `hex` (`"0123456789abcdef"`) for `n < 16`. -/
def hexDigit (n : Nat) : UInt8 := UInt8.ofNat (if n < 10 then 48 + n else 87 + n)

/-- The table `htmlSafeSet`: the ASCII bytes written without escaping, that is
0x20 to 0x7F except `"`, `&`, `<`, `>` and the backslash. -/
def htmlSafe (b : UInt8) : Bool :=
  decide (0x20 ≤ b.toNat) && decide (b.toNat < 0x80) &&
    !(b = 0x22 || b = 0x26 || b = 0x3C || b = 0x3E || b = 0x5C)

/-- The escape sequence of an ASCII byte that is not in `htmlSafeSet`. -/
def escapeByte (b : UInt8) : Bytes :=
  if b = 0x5C ∨ b = 0x22 then [0x5C, b]
  else if b = 0x08 then [0x5C, 0x62]
  else if b = 0x0C then [0x5C, 0x66]
  else if b = 0x0A then [0x5C, 0x6E]
  else if b = 0x0D then [0x5C, 0x72]
  else if b = 0x09 then [0x5C, 0x74]
  else [0x5C, 0x75, 0x30, 0x30, hexDigit (b.toNat / 16), hexDigit (b.toNat % 16)]

/-- The loop of `appendString` with `escapeHTML` set: safe ASCII bytes and
valid multi-byte runes are copied, other ASCII bytes are escaped, and U+2028
and U+2029 are written as escapes.  A byte that starts no well-formed rune is
written as the six-byte escape of U+FFFD, as the loop in `encode.go` does; an
encoder that writes the rune U+FFFD itself (the bytes EF BF BD) gives the same
bytes on well-formed UTF-8, and the chaincode serializes only records that
`json.Unmarshal` decoded, whose strings are well-formed. -/
def escapeLoop : Nat → Bytes → Bytes
  | 0, _ => []
  | fuel + 1, s =>
    match s with
    | [] => []
    | b :: r =>
      if b.toNat < 0x80 then
        (if htmlSafe b then [b] else escapeByte b) ++ escapeLoop fuel r
      else
        let d := DecodeRune s
        if d.1 = runeError ∧ d.2 = 1 then goString "\\ufffd" ++ escapeLoop fuel r
        else if d.1 = 0x2028 ∨ d.1 = 0x2029 then
          goString "\\u202" ++ [hexDigit (d.1 % 16)] ++ escapeLoop fuel (s.drop d.2)
        else s.take d.2 ++ escapeLoop fuel (s.drop d.2)

/-- The function `appendString`: a Go string as a JSON string literal. -/
def appendString (s : Bytes) : Bytes := 0x22 :: escapeLoop s.length s ++ [0x22]

/-- The canonical serialization of a record: the four fields under their JSON
names, in declaration order, without white space. -/
def encodePatient (p : Patient) : Bytes :=
  goString "\x7b\"patientId\":" ++ appendString p.PatientId ++
  goString ",\"age\":" ++ Itoa p.Age ++
  goString ",\"gender\":" ++ appendString p.Gender ++
  goString ",\"illness\":" ++ appendString p.Illness ++ goString "\x7d"

/-- The function `json.Marshal(p)` for `p` of type `Patient`: the bytes and the
error, which is always `nil` for a struct of strings and an `int`. -/
def Marshal (p : Patient) : Bytes × Option JsonError := (encodePatient p, none)

/-! ## The ledger primitives of the shim -/

/-- A call of a ledger primitive. -/
inductive StubCall where
  | getState (key : Bytes)
  | putState (key value : Bytes)
  deriving DecidableEq, Repr

/-- The world behind `shim.ChaincodeStubInterface`: the key/value state of the
ledger, the calls of the two primitives made so far (latest first), and the
platform's failures, which may depend on the calls made so far. -/
structure Stub where
  state : Bytes → Option Bytes
  calls : List StubCall
  getFails : List StubCall → Bytes → Bool
  putFails : List StubCall → Bytes → Bytes → Bool

/-- The primitive `stub.GetState(key)`: the bytes under `key` (`none` is the
`nil` slice the platform returns for a key that holds nothing) and whether an
error is returned; the call is recorded. -/
def Stub.GetState (stub : Stub) (key : Bytes) : (Option Bytes × Bool) × Stub :=
  let stub1 := { stub with calls := StubCall.getState key :: stub.calls }
  if stub.getFails stub.calls key then ((none, true), stub1)
  else ((stub.state key, false), stub1)

/-- The primitive `stub.PutState(key, value)`: whether an error is returned.
A successful call binds `key` to `value` and changes no other key; a failing
call leaves the state as it is.  The call is recorded. -/
def Stub.PutState (stub : Stub) (key value : Bytes) : Bool × Stub :=
  let calls1 := StubCall.putState key value :: stub.calls
  if stub.putFails stub.calls key value then (true, { stub with calls := calls1 })
  else
    (false, { stub with
      state := fun k => if k = key then some value else stub.state k
      calls := calls1 })

/-! ## The chaincode -/

/-- What an entry point returns: the payload (`none` is `nil`) and the error
(`none` is `nil`, otherwise the message). -/
abbrev Response := Option Bytes × Option Bytes

/-- The method `save_changes`: marshals the record and writes it under its
`PatientId`. -/
def save_changes (stub : Stub) (p : Patient) : (Bool × Option Bytes) × Stub :=
  match Marshal p with
  | (_, some _) => ((false, some (goString "Error converting Patient record")), stub)
  | (patientJson, none) =>
    match stub.PutState p.PatientId patientJson with
    | (true, stub1) => ((false, some (goString "Error storing Patient record")), stub1)
    | (false, stub1) => ((true, none), stub1)

/-- The method `create_patient`: builds the JSON text of the record by
concatenation, rejects an empty id, unmarshals the text into a `Patient` and
saves it. -/
def create_patient (stub : Stub) (patientId : Bytes) (age : Int) (gender illness : Bytes) :
    Response × Stub :=
  let p := Patient.zero
  let patient_json :=
    goString "\x7b\"patientId\": \"" ++ patientId ++ goString "\", \"age\": " ++ Itoa age ++
    goString ", \"gender\": \"" ++ gender ++ goString "\", \"illness\": \"" ++ illness ++
    goString "\"\x7d"
  if patientId = [] then ((none, some (goString "Invalid Patient ID provided.")), stub)
  else
    match Unmarshal patient_json p with
    | (_, some _) => ((none, some (goString "Invalid JSON Object")), stub)
    | (p1, none) =>
      match save_changes stub p1 with
      | ((_, some _), stub1) => ((none, some (goString "Error saving changes")), stub1)
      | ((_, none), stub1) => ((none, none), stub1)

/-- The method `Init`. -/
def Init (stub : Stub) (_function : Bytes) (_args : List Bytes) : Response × Stub :=
  ((none, none), stub)

/-- The method `Invoke`. -/
def Invoke (stub : Stub) (function : Bytes) (args : List Bytes) : Response × Stub :=
  match args with
  | [a0, a1, a2, a3] =>
    match Atoi a1 with
    | none => ((none, some (goString "INVOKE: String to int conversion failed")), stub)
    | some age =>
      if function = goString "create_patient" then create_patient stub a0 age a2 a3
      else ((none, some (goString "Function " ++ function ++ goString "doesn\x27t exist")), stub)
  | _ =>
    ((none, some (goString "INVOKE: Incorrect number of parameters passed. Expecting 4.")), stub)

/-- The method `getPatient`: reads the bytes under `patientId` and unmarshals
them into a `Patient`. -/
def getPatient (stub : Stub) (patientId : Bytes) : (Patient × Option Bytes) × Stub :=
  let p := Patient.zero
  match stub.GetState patientId with
  | ((_, true), stub1) =>
    ((p, some (goString "GET_PATIENT: Error retrieving patient record with patientId = " ++
      patientId)), stub1)
  | ((bytes, false), stub1) =>
    match Unmarshal (bytes.getD []) p with
    | (p1, some _) =>
      ((p1, some (goString "GET_PATIENT: Corrupt patient record" ++ bytes.getD [])), stub1)
    | (p1, none) => ((p1, none), stub1)

/-- The method `getPatientRecord`: marshals the record. -/
def getPatientRecord (_stub : Stub) (p : Patient) : Response :=
  match Marshal p with
  | (bytes, some _) => (some bytes, some (goString "GET_PATIENT_RECORD: Invalid Patient object."))
  | (bytes, none) => (some bytes, none)

/-- The method `Query`. -/
def Query (stub : Stub) (function : Bytes) (args : List Bytes) : Response × Stub :=
  match args with
  | [a0] =>
    if function = goString "getPatientRecord" then
      match getPatient stub a0 with
      | ((_, some err), stub1) =>
        ((none, some (goString "QUERY: Error retrieving Patient " ++ err)), stub1)
      | ((p, none), stub1) => (getPatientRecord stub1 p, stub1)
    else ((none, some (goString "Received unknown function invocation " ++ function)), stub)
  | _ => ((none, some (goString "QUERY: Incorrect number of arguments passed")), stub)

/-! ## Notions of the specification -/

/-- A ledger that holds nothing and whose primitives never fail. -/
def emptyLedger : Stub := ⟨fun _ => none, [], fun _ _ => false, fun _ _ _ => false⟩

/-- A ledger that holds `value` under `key` and nothing else, and whose
primitives never fail. -/
def ledgerWith (key value : Bytes) : Stub :=
  ⟨fun k => if k = key then some value else none, [], fun _ _ => false, fun _ _ _ => false⟩

/-- The number a run of decimal digits denotes, continuing from `n`. -/
def digitsValueFrom (n : Nat) (ds : Bytes) : Nat :=
  ds.foldl (fun acc c => acc * 10 + (c.toNat - 48)) n

/-- The number a run of decimal digits denotes. -/
def digitsValue (ds : Bytes) : Nat := digitsValueFrom 0 ds

/-- The text `s` is the decimal text of the integer `n`: a non-empty run of
decimal digits, optionally preceded by one sign `+` or `-`, that denotes `n`. -/
def DecimalText (s : Bytes) (n : Int) : Prop :=
  ∃ ds : Bytes, ds ≠ [] ∧ (∀ c ∈ ds, isDigit c = true) ∧
    ((s = ds ∧ n = (digitsValue ds : Int)) ∨ (s = 0x2B :: ds ∧ n = (digitsValue ds : Int)) ∨
      (s = 0x2D :: ds ∧ n = -(digitsValue ds : Int)))

/-- The loop of `utf8.Valid`: every rune decodes without error. -/
def validLoop : Nat → Bytes → Bool
  | 0, s => s.isEmpty
  | fuel + 1, s =>
    match s with
    | [] => true
    | _ :: _ =>
      !(decide ((DecodeRune s).1 = runeError) && decide ((DecodeRune s).2 = 1)) &&
        validLoop fuel (s.drop (DecodeRune s).2)

/-- The function `utf8.Valid`: `s` is well-formed UTF-8. -/
def utf8Valid (s : Bytes) : Bool := validLoop s.length s

/-- Text that can stand between the quotes of a JSON string literal as it is:
well-formed UTF-8 without a quotation mark, a backslash or a byte below
0x20. -/
def plainText (s : Bytes) : Prop :=
  utf8Valid s = true ∧ ∀ b ∈ s, 0x20 ≤ b.toNat ∧ b ≠ 0x22 ∧ b ≠ 0x5C

/-- The text of a JSON object that carries the four members of a record in
declaration order: `w` is the white space after each colon and each comma, `l1`,
`l3` and `l4` are the string literals of the id, the gender and the illness
from after their opening quote to their closing quote, and `num` is the number
literal of the age. -/
def recordText (w l1 num l3 l4 : Bytes) : Bytes :=
  0x7B :: 0x22 :: (goString "patientId" ++ 0x22 :: 0x3A :: (w ++ 0x22 :: (l1 ++ 0x2C :: (w ++
    0x22 :: (goString "age" ++ 0x22 :: 0x3A :: (w ++ (num ++ 0x2C :: (w ++
    0x22 :: (goString "gender" ++ 0x22 :: 0x3A :: (w ++ 0x22 :: (l3 ++ 0x2C :: (w ++
    0x22 :: (goString "illness" ++ 0x22 :: 0x3A :: (w ++ 0x22 :: (l4 ++ [0x7D])))))))))))))))

/-- The ledger `stub` after a successful write of `value` under `key`: `key` is
bound to `value`, every other key keeps its value, and the write is
recorded. -/
def Stub.afterPut (stub : Stub) (key value : Bytes) : Stub :=
  { stub with
    state := fun k => if k = key then some value else stub.state k
    calls := StubCall.putState key value :: stub.calls }

/-- The ledger `stub` after a read of `key`: only the read is recorded. -/
def Stub.afterGet (stub : Stub) (key : Bytes) : Stub :=
  { stub with calls := StubCall.getState key :: stub.calls }

/-- The text `create_patient` builds from its arguments (the local variable
`patient_json`). -/
def patient_json (patientId : Bytes) (age : Int) (gender illness : Bytes) : Bytes :=
  goString "\x7b\"patientId\": \"" ++ patientId ++ goString "\", \"age\": " ++ Itoa age ++
    goString ", \"gender\": \"" ++ gender ++ goString "\", \"illness\": \"" ++ illness ++
    goString "\"\x7d"

/-- Text that `json.Marshal` writes between quotes as it is: plain text without
`<`, `>` and `&` and without the runes U+2028 and U+2029 (the byte sequences
E2 80 A8 and E2 80 A9). -/
def verbatimText (s : Bytes) : Prop :=
  plainText s ∧ (∀ b ∈ s, b ≠ 0x3C ∧ b ≠ 0x3E ∧ b ≠ 0x26) ∧
    ¬ List.IsInfix [0xE2, 0x80, 0xA8] s ∧ ¬ List.IsInfix [0xE2, 0x80, 0xA9] s

/-- The bytes of a record written with the fixed field names in declaration
order, the text of the strings between quotes as it is, the age in decimal, and
no white space. -/
def canonicalText (patientId : Bytes) (age : Int) (gender illness : Bytes) : Bytes :=
  goString "\x7b\"patientId\":\"" ++ patientId ++ goString "\",\"age\":" ++ Itoa age ++
    goString ",\"gender\":\"" ++ gender ++ goString "\",\"illness\":\"" ++ illness ++
    goString "\"\x7d"

/-- A record as `json.Unmarshal` can produce it: strings that are well-formed
UTF-8 and an age of type `int`. -/
def Patient.wellFormed (p : Patient) : Prop :=
  utf8Valid p.PatientId = true ∧ utf8Valid p.Gender = true ∧ utf8Valid p.Illness = true ∧
    minInt ≤ p.Age ∧ p.Age ≤ maxInt

/-- A JSON value that, when it is a string, holds well-formed UTF-8. -/
def JValue.stringValid : JValue → Prop
  | .string s => utf8Valid s = true
  | _ => True

/-- The invariant of the ledger: whatever is stored under a key decodes, without
error, to a record whose `PatientId` is that key. -/
def KeyIsId (state : Bytes → Option Bytes) : Prop :=
  ∀ k v, state k = some v → ∃ p, Unmarshal v Patient.zero = (p, none) ∧ p.PatientId = k

/-- The bytes `value` were written by a successful `create_patient`: some call
of it, on some ledger and arguments, returned no error and its write put
`value` under some key. -/
def writtenByCreate (value : Bytes) : Prop :=
  ∃ (s0 : Stub) (patientId : Bytes) (age : Int) (gender illness key : Bytes),
    (create_patient s0 patientId age gender illness).1.2 = none ∧
    (create_patient s0 patientId age gender illness).2.calls.head? =
      some (StubCall.putState key value)

/-- Text that can stand between the quotes of a JSON string literal without
being cut short or read as an escape: no quotation mark, no backslash and no
byte below 0x20.  It need not be well-formed UTF-8. -/
def unescapedText (s : Bytes) : Prop := ∀ b ∈ s, 0x20 ≤ b.toNat ∧ b ≠ 0x22 ∧ b ≠ 0x5C

/-- The loop of `toValidUTF8`: each rune is decoded with `DecodeRune` and
written back with `EncodeRune`. -/
def coerceLoop : Nat → Bytes → Bytes
  | 0, _ => []
  | fuel + 1, s =>
    match s with
    | [] => []
    | _ :: _ => EncodeRune (DecodeRune s).1 ++ coerceLoop fuel (s.drop (DecodeRune s).2)

/-- The text with every byte that is not part of a well-formed rune replaced by
U+FFFD (the bytes EF BF BD), one replacement for each such byte; well-formed
runes are kept. -/
def toValidUTF8 (s : Bytes) : Bytes := coerceLoop s.length s

/-! ## Theorems -/

theorem digitsValueFrom_cons (n : Nat) (c : UInt8) (ds : Bytes) :
    digitsValueFrom n (c :: ds) = digitsValueFrom (n * 10 + (c.toNat - 48)) ds := rfl

theorem le_digitsValueFrom (ds : Bytes) : ∀ n, n ≤ digitsValueFrom n ds := by
  induction ds with
  | nil => intro n; exact Nat.le_refl n
  | cons c cs ih =>
    intro n
    rw [digitsValueFrom_cons]
    have := ih (n * 10 + (c.toNat - 48))
    omega

theorem isDigit_iff (c : UInt8) : isDigit c = true ↔ 48 ≤ c.toNat ∧ c.toNat ≤ 57 := by
  simp [isDigit]

theorem parseUintLoop_ok_iff (ds : Bytes) : ∀ (n m : Nat), n < 2 ^ 64 →
    (parseUintLoop 64 ds n = .ok m ↔
      (∀ c ∈ ds, isDigit c = true) ∧ digitsValueFrom n ds = m ∧ m < 2 ^ 64) := by
  induction ds with
  | nil =>
    intro n m hn
    simp only [parseUintLoop, digitsValueFrom, List.foldl_nil, NumResult.ok.injEq,
      List.not_mem_nil, false_implies, implies_true, true_and]
    constructor
    · intro h; subst h; exact ⟨rfl, hn⟩
    · intro h; exact h.1
  | cons c cs ih =>
    intro n m hn
    rw [digitsValueFrom_cons]
    simp only [parseUintLoop, List.mem_cons, forall_eq_or_imp, isDigit_iff]
    by_cases hc : 48 ≤ c.toNat ∧ c.toNat ≤ 57
    · rw [if_pos hc]
      by_cases hcut : n ≥ (2 ^ 64 - 1) / 10 + 1
      · rw [if_pos hcut]
        have hge := le_digitsValueFrom cs (n * 10 + (c.toNat - 48))
        constructor
        · intro h; cases h
        · rintro ⟨_, hv, hm⟩
          exfalso
          norm_num at hcut
          omega
      · rw [if_neg hcut]
        by_cases hov : n * 10 + (c.toNat - 48) ≥ 2 ^ 64 ∨ n * 10 + (c.toNat - 48) > 2 ^ 64 - 1
        · simp only [hov, if_true]
          have hge := le_digitsValueFrom cs (n * 10 + (c.toNat - 48))
          constructor
          · intro h; cases h
          · rintro ⟨_, hv, hm⟩
            exfalso
            omega
        · simp only [hov, if_false]
          have hlt : n * 10 + (c.toNat - 48) < 2 ^ 64 := by omega
          rw [ih _ m hlt]
          simp [hc, isDigit_iff]
    · rw [if_neg hc]
      constructor
      · intro h; cases h
      · rintro ⟨h, _⟩; exact absurd h.1 hc


theorem byte_eq_iff (c : UInt8) (k : Nat) (hk : k < 256) :
    c = UInt8.ofNat k ↔ c.toNat = k := by
  constructor
  · intro h; rw [h]; exact UInt8.toNat_ofNat_of_lt hk
  · intro h
    apply UInt8.toNat.inj
    rw [h, UInt8.toNat_ofNat_of_lt hk]

theorem ParseUint_ok_iff (ds : Bytes) (m : Nat) :
    ParseUint ds 64 = .ok m ↔
      ds ≠ [] ∧ (∀ c ∈ ds, isDigit c = true) ∧ digitsValue ds = m ∧ m < 2 ^ 64 := by
  unfold ParseUint
  by_cases h : ds = []
  · simp [h]
  · rw [if_neg h, parseUintLoop_ok_iff ds 0 m (by norm_num)]
    simp [h, digitsValue]


theorem DecimalText_cons_iff (c : UInt8) (cs : Bytes) (n : Int) :
    DecimalText (c :: cs) n ↔
      (c.toNat = 43 ∧ cs ≠ [] ∧ (∀ d ∈ cs, isDigit d = true) ∧ n = (digitsValue cs : Int)) ∨
      (c.toNat = 45 ∧ cs ≠ [] ∧ (∀ d ∈ cs, isDigit d = true) ∧ n = -(digitsValue cs : Int)) ∨
      ((∀ d ∈ c :: cs, isDigit d = true) ∧ n = (digitsValue (c :: cs) : Int)) := by
  constructor
  · rintro ⟨ds, hne, hd, h | h | h⟩
    · right; right
      rw [h.1]; exact ⟨hd, h.2⟩
    · left
      obtain ⟨h1, h2⟩ := h
      injection h1 with hc hcs
      subst hcs
      exact ⟨by rw [hc]; rfl, hne, hd, h2⟩
    · right; left
      obtain ⟨h1, h2⟩ := h
      injection h1 with hc hcs
      subst hcs
      exact ⟨by rw [hc]; rfl, hne, hd, h2⟩
  · rintro (⟨hc, hne, hd, hn⟩ | ⟨hc, hne, hd, hn⟩ | ⟨hd, hn⟩)
    · refine ⟨cs, hne, hd, Or.inr (Or.inl ⟨?_, hn⟩)⟩
      rw [(byte_eq_iff c 43 (by norm_num)).2 hc]; rfl
    · refine ⟨cs, hne, hd, Or.inr (Or.inr ⟨?_, hn⟩)⟩
      rw [(byte_eq_iff c 45 (by norm_num)).2 hc]; rfl
    · exact ⟨c :: cs, by simp, hd, Or.inl ⟨rfl, hn⟩⟩


theorem ParseInt_signed_iff (body : Bytes) (neg : Prop) [Decidable neg] (n : Int) :
    (match ParseUint body 64 with
      | .syntaxErr => none
      | .rangeErr => none
      | .ok un =>
        if ¬ neg ∧ un ≥ 2 ^ (64 - 1) then none
        else if neg ∧ un > 2 ^ (64 - 1) then none
        else some (if neg then -(un : Int) else (un : Int))) = some n ↔
    body ≠ [] ∧ (∀ d ∈ body, isDigit d = true) ∧
      n = (if neg then -(digitsValue body : Int) else (digitsValue body : Int)) ∧
      -(2 ^ 63 : Int) ≤ n ∧ n ≤ (2 ^ 63 : Int) - 1 := by
  cases hres : ParseUint body 64 with
  | ok un =>
    rw [ParseUint_ok_iff] at hres
    obtain ⟨hne, hd, hv, hlt⟩ := hres
    subst hv
    by_cases hneg : neg
    · simp only [hneg, not_true_eq_false, false_and, if_false, true_and, if_true]
      constructor
      · intro h
        split_ifs at h with h1
        injection h with h
        subst h
        refine ⟨hne, hd, rfl, ?_, ?_⟩ <;> norm_num at h1 ⊢ <;> omega
      · rintro ⟨_, _, h3, h4, h5⟩
        subst h3
        rw [if_neg (by norm_num at h4 ⊢; omega)]
    · simp only [hneg, not_false_eq_true, true_and, false_and, if_false]
      constructor
      · intro h
        split_ifs at h with h1
        injection h with h
        subst h
        refine ⟨hne, hd, rfl, ?_, ?_⟩ <;> norm_num at h1 ⊢ <;> omega
      · rintro ⟨_, _, h3, h4, h5⟩
        subst h3
        rw [if_neg (by norm_num at h5 ⊢; omega)]
  | syntaxErr =>
    constructor
    · intro h; cases h
    · rintro ⟨hne, hd, h3, h4, h5⟩
      have hlt : digitsValue body < 2 ^ 64 := by
        split_ifs at h3 <;> subst h3 <;> norm_num at h4 h5 ⊢ <;> omega
      have hok := (ParseUint_ok_iff body (digitsValue body)).2 ⟨hne, hd, rfl, hlt⟩
      rw [hres] at hok
      cases hok
  | rangeErr =>
    constructor
    · intro h; cases h
    · rintro ⟨hne, hd, h3, h4, h5⟩
      have hlt : digitsValue body < 2 ^ 64 := by
        split_ifs at h3 <;> subst h3 <;> norm_num at h4 h5 ⊢ <;> omega
      have hok := (ParseUint_ok_iff body (digitsValue body)).2 ⟨hne, hd, rfl, hlt⟩
      rw [hres] at hok
      cases hok

theorem Atoi_eq_some_iff (s : Bytes) (n : Int) :
    Atoi s = some n ↔ DecimalText s n ∧ minInt ≤ n ∧ n ≤ maxInt := by
  cases s with
  | nil =>
    constructor
    · intro h; simp [Atoi, ParseInt] at h
    · rintro ⟨⟨ds, hne, _, h | h | h⟩, _⟩
      · exact absurd h.1.symm hne
      · cases h.1
      · cases h.1
  | cons c cs =>
    have hmin : minInt = -(2 ^ 63 : Int) := by simp [minInt, intSize]
    have hmax : maxInt = (2 ^ 63 : Int) - 1 := by simp [maxInt, intSize]
    rw [DecimalText_cons_iff, hmin, hmax]
    show (match ParseUint (if c.toNat = 43 ∨ c.toNat = 45 then cs else c :: cs) 64 with
      | .syntaxErr => none
      | .rangeErr => none
      | .ok un =>
        if ¬ (c.toNat = 45) ∧ un ≥ 2 ^ (64 - 1) then none
        else if c.toNat = 45 ∧ un > 2 ^ (64 - 1) then none
        else some (if c.toNat = 45 then -(un : Int) else (un : Int))) = some n ↔ _
    rw [ParseInt_signed_iff]
    by_cases hp : c.toNat = 43
    · have hnd : ¬ (isDigit c = true) := by rw [isDigit_iff]; omega
      have hm : ¬ c.toNat = 45 := by omega
      rw [if_pos (Or.inl hp), if_neg hm]
      constructor
      · rintro ⟨h1, h2, h3, h4⟩
        exact ⟨Or.inl ⟨hp, h1, h2, h3⟩, h4⟩
      · rintro ⟨⟨_, h1, h2, h3⟩ | ⟨h, _⟩ | ⟨h, _⟩, h4⟩
        · exact ⟨h1, h2, h3, h4⟩
        · exact absurd h hm
        · exact absurd (h c (List.mem_cons_self c cs)) hnd
    · by_cases hm : c.toNat = 45
      · have hnd : ¬ (isDigit c = true) := by rw [isDigit_iff]; omega
        rw [if_pos (Or.inr hm), if_pos hm]
        constructor
        · rintro ⟨h1, h2, h3, h4⟩
          exact ⟨Or.inr (Or.inl ⟨hm, h1, h2, h3⟩), h4⟩
        · rintro ⟨⟨h, _⟩ | ⟨_, h1, h2, h3⟩ | ⟨h, _⟩, h4⟩
          · exact absurd h hp
          · exact ⟨h1, h2, h3, h4⟩
          · exact absurd (h c (List.mem_cons_self c cs)) hnd
      · rw [if_neg (by omega), if_neg hm]
        constructor
        · rintro ⟨_, h2, h3, h4⟩
          exact ⟨Or.inr (Or.inr ⟨h2, h3⟩), h4⟩
        · rintro ⟨⟨h, _⟩ | ⟨h, _⟩ | ⟨h2, h3⟩, h4⟩
          · exact absurd h hp
          · exact absurd h hm
          · exact ⟨by simp, h2, h3, h4⟩

/-! ### Argument checks of the entry points -/

/-- Claim C2: `create_patient` with the empty id returns the validation error
`Invalid Patient ID provided.` with a nil payload, and the ledger (state and
recorded calls) is exactly as before: no write is made. -/
theorem create_patient_empty_id (stub : Stub) (age : Int) (gender illness : Bytes) :
    create_patient stub [] age gender illness =
      ((none, some (goString "Invalid Patient ID provided.")), stub) := by
  simp [create_patient]

/-- Claim C7: `Invoke` with an argument list whose length is not 4 returns the
argument error with a nil payload and leaves the ledger as it is, whatever the
function name and the arguments are. -/
theorem Invoke_wrong_arity (stub : Stub) (function : Bytes) (args : List Bytes)
    (h : args.length ≠ 4) :
    Invoke stub function args =
      ((none, some (goString "INVOKE: Incorrect number of parameters passed. Expecting 4.")),
        stub) := by
  unfold Invoke
  split
  · simp at h
  · rfl

/-- Claim C7 at two arguments. -/
theorem Invoke_wrong_arity_witness :
    ([goString "p1", goString "42"] : List Bytes).length ≠ 4 ∧
    Invoke emptyLedger (goString "create_patient") [goString "p1", goString "42"] =
      ((none, some (goString "INVOKE: Incorrect number of parameters passed. Expecting 4.")),
        emptyLedger) :=
  ⟨by decide, Invoke_wrong_arity emptyLedger _ _ (by decide)⟩

/-- Claim C8: `Query` with an argument list whose length is not 1 returns the
argument error with a nil payload and leaves the ledger as it is; in particular
no call of `GetState` is recorded. -/
theorem Query_wrong_arity (stub : Stub) (function : Bytes) (args : List Bytes)
    (h : args.length ≠ 1) :
    Query stub function args =
      ((none, some (goString "QUERY: Incorrect number of arguments passed")), stub) := by
  unfold Query
  split
  · simp at h
  · rfl

/-- Claim C8 at no argument. -/
theorem Query_wrong_arity_witness :
    ([] : List Bytes).length ≠ 1 ∧
    Query emptyLedger (goString "getPatientRecord") [] =
      ((none, some (goString "QUERY: Incorrect number of arguments passed")), emptyLedger) :=
  ⟨by decide, Query_wrong_arity emptyLedger _ _ (by decide)⟩

/-- Claim C9: on four arguments, when the second is not the decimal text of an
integer of type `int`, `Invoke` returns the conversion error with a nil payload
and leaves the ledger as it is, whatever the function name; when it is the
decimal text of such an integer `n`, the age handed to `create_patient` is
`n`. -/
theorem Invoke_age_conversion (stub : Stub) (function a0 a1 a2 a3 : Bytes) :
    ((¬ ∃ n : Int, DecimalText a1 n ∧ minInt ≤ n ∧ n ≤ maxInt) →
      Invoke stub function [a0, a1, a2, a3] =
        ((none, some (goString "INVOKE: String to int conversion failed")), stub)) ∧
    (∀ n : Int, DecimalText a1 n → minInt ≤ n → n ≤ maxInt →
      Invoke stub (goString "create_patient") [a0, a1, a2, a3] =
        create_patient stub a0 n a2 a3) := by
  constructor
  · intro h
    have hnone : Atoi a1 = none := by
      cases hres : Atoi a1 with
      | none => rfl
      | some n => exact absurd ⟨n, (Atoi_eq_some_iff a1 n).1 hres⟩ h
    simp [Invoke, hnone]
  · intro n hd h1 h2
    have hsome : Atoi a1 = some n := (Atoi_eq_some_iff a1 n).2 ⟨hd, h1, h2⟩
    simp [Invoke, hsome]

/-- Claim C9 at the arguments `p1`, `abc`, `F`, `flu` (no decimal text) and
`p1`, `-42`, `F`, `flu` (the decimal text of -42). -/
theorem Invoke_age_conversion_witness :
    Invoke emptyLedger (goString "create_patient")
        [goString "p1", goString "abc", goString "F", goString "flu"] =
      ((none, some (goString "INVOKE: String to int conversion failed")), emptyLedger) ∧
    Invoke emptyLedger (goString "create_patient")
        [goString "p1", goString "-42", goString "F", goString "flu"] =
      create_patient emptyLedger (goString "p1") (-42) (goString "F") (goString "flu") := by
  constructor
  · refine (Invoke_age_conversion emptyLedger _ _ (goString "abc") _ _).1 ?_
    rintro ⟨n, hn, -⟩
    have hn : DecimalText (0x61 :: [0x62, 0x63]) n := hn
    rw [DecimalText_cons_iff] at hn
    rcases hn with ⟨h, _⟩ | ⟨h, _⟩ | ⟨h, _⟩
    · revert h; decide
    · revert h; decide
    · have := h _ (List.mem_cons_self _ _)
      revert this; decide
  · refine (Invoke_age_conversion emptyLedger (goString "create_patient") _ (goString "-42")
      _ _).2 (-42) ?_ ?_ ?_
    · exact ⟨goString "42", by decide, by decide, Or.inr (Or.inr ⟨by decide, by decide⟩)⟩
    · decide
    · decide

/-- Claim C10: on four arguments whose second parses as an integer, a function
name other than `create_patient` gives the unknown-function error with a nil
payload and leaves the ledger as it is; with the name `create_patient` the call
is that of `create_patient` on the first argument, the parsed age, and the
third and fourth arguments. -/
theorem Invoke_dispatch (stub : Stub) (function a0 a1 a2 a3 : Bytes) (age : Int)
    (hage : Atoi a1 = some age) :
    (function ≠ goString "create_patient" →
      Invoke stub function [a0, a1, a2, a3] =
        ((none, some (goString "Function " ++ function ++ goString "doesn\x27t exist")),
          stub)) ∧
    (function = goString "create_patient" →
      Invoke stub function [a0, a1, a2, a3] = create_patient stub a0 age a2 a3) := by
  constructor
  · intro hf
    simp [Invoke, hage, hf]
  · intro hf
    simp [Invoke, hage, hf]

/-- Claim C10 at the function name `delete_patient`. -/
theorem Invoke_dispatch_witness :
    Atoi (goString "42") = some 42 ∧
    Invoke emptyLedger (goString "delete_patient")
        [goString "p1", goString "42", goString "F", goString "flu"] =
      ((none, some (goString "Function delete_patientdoesn\x27t exist")), emptyLedger) :=
  ⟨by decide,
    (Invoke_dispatch emptyLedger (goString "delete_patient") (goString "p1") (goString "42")
      (goString "F") (goString "flu") 42 (by decide)).1 (by decide)⟩

/-! ### Reading a record back -/

/-- The query on one argument with the name `getPatientRecord`, when the read
primitive reports no error: the bytes found under the id (the empty slice when
there are none) go through `json.Unmarshal`; its error is the corrupt-record
error, its success is answered with the serialization of the decoded record.
The read is recorded. -/
theorem Query_getPatientRecord_eq (stub : Stub) (id : Bytes)
    (hget : stub.getFails stub.calls id = false) :
    Query stub (goString "getPatientRecord") [id] =
      (match (Unmarshal ((stub.state id).getD []) Patient.zero).2 with
        | some _ =>
          (none, some (goString "QUERY: Error retrieving Patient " ++
            (goString "GET_PATIENT: Corrupt patient record" ++ (stub.state id).getD [])))
        | none =>
          (some (encodePatient (Unmarshal ((stub.state id).getD []) Patient.zero).1), none),
       stub.afterGet id) := by
  simp only [Query, if_true, getPatient, Stub.GetState, hget, Bool.false_eq_true, if_false]
  rcases hu : Unmarshal ((stub.state id).getD []) Patient.zero with ⟨p1, _ | e⟩
  · simp [getPatientRecord, Marshal, Stub.afterGet]
  · simp [Stub.afterGet]

/-- Claim C5, as amended: when the read primitive returns nothing for the id
(no bytes, no error), the query fails with a nil payload, and the error is the
corrupt-record error of `getPatient` with no bytes after it; no successful
payload is returned. -/
theorem Query_missing_key (stub : Stub) (id : Bytes)
    (hget : stub.getFails stub.calls id = false) (hnone : stub.state id = none) :
    Query stub (goString "getPatientRecord") [id] =
      ((none, some (goString
          "QUERY: Error retrieving Patient GET_PATIENT: Corrupt patient record")),
        stub.afterGet id) := by
  rw [Query_getPatientRecord_eq stub id hget, hnone]
  have hu : Unmarshal ((none : Option Bytes).getD []) Patient.zero =
      (Patient.zero, some JsonError.syntaxError) := by decide
  rw [hu]
  have hm : goString "QUERY: Error retrieving Patient " ++
      (goString "GET_PATIENT: Corrupt patient record" ++ (none : Option Bytes).getD []) =
      goString "QUERY: Error retrieving Patient GET_PATIENT: Corrupt patient record" := by
    decide
  simp only [hm]

/-- Claim C5, as amended, on the empty ledger and the id `p1`. -/
theorem Query_missing_key_witness :
    Query emptyLedger (goString "getPatientRecord") [goString "p1"] =
      ((none, some (goString
          "QUERY: Error retrieving Patient GET_PATIENT: Corrupt patient record")),
        emptyLedger.afterGet (goString "p1")) :=
  Query_missing_key emptyLedger (goString "p1") rfl rfl

/-- Claim C5 as stated fails: on the empty ledger the read of `p1` returns
nothing and reports no error, and the error of the query is the corrupt-record
error, not the storage error of `getPatient` (`Error retrieving patient record
with patientId = p1`). -/
theorem Query_missing_key_not_storage_error :
    emptyLedger.getFails emptyLedger.calls (goString "p1") = false ∧
    emptyLedger.state (goString "p1") = none ∧
    (Query emptyLedger (goString "getPatientRecord") [goString "p1"]).1 =
      (none, some (goString
        "QUERY: Error retrieving Patient GET_PATIENT: Corrupt patient record")) ∧
    (Query emptyLedger (goString "getPatientRecord") [goString "p1"]).1 ≠
      (none, some (goString ("QUERY: Error retrieving Patient GET_PATIENT: " ++
        "Error retrieving patient record with patientId = p1"))) := by
  decide!

/-- Claim C6, as amended: when the read of the id reports no error and returns
`bytes`, the query fails with the corrupt-record error followed by `bytes` and a
nil payload exactly when `json.Unmarshal` rejects `bytes` for a `Patient`;
when `json.Unmarshal` accepts them the query succeeds with the serialization of
the decoded record. -/
theorem Query_corrupt_record (stub : Stub) (id bytes : Bytes)
    (hget : stub.getFails stub.calls id = false) (hstate : stub.state id = some bytes) :
    ((Unmarshal bytes Patient.zero).2 ≠ none →
      Query stub (goString "getPatientRecord") [id] =
        ((none, some (goString
            "QUERY: Error retrieving Patient GET_PATIENT: Corrupt patient record" ++ bytes)),
          stub.afterGet id)) ∧
    ((Unmarshal bytes Patient.zero).2 = none →
      Query stub (goString "getPatientRecord") [id] =
        ((some (encodePatient (Unmarshal bytes Patient.zero).1), none),
          stub.afterGet id)) := by
  rw [Query_getPatientRecord_eq stub id hget, hstate]
  have hm : goString "QUERY: Error retrieving Patient " ++
      (goString "GET_PATIENT: Corrupt patient record" ++ bytes) =
      goString "QUERY: Error retrieving Patient GET_PATIENT: Corrupt patient record" ++
        bytes := by
    rw [← List.append_assoc]
    rfl
  simp only [Option.getD_some, hm]
  constructor
  · intro h
    cases he : (Unmarshal bytes Patient.zero).2 with
    | none => exact absurd he h
    | some e => rfl
  · intro h
    rw [h]

/-- Claim C6, as amended, on stored bytes that are not JSON (`p1 flu`). -/
theorem Query_corrupt_record_witness :
    Query (ledgerWith (goString "p1") (goString "p1 flu")) (goString "getPatientRecord")
        [goString "p1"] =
      ((none, some (goString
          "QUERY: Error retrieving Patient GET_PATIENT: Corrupt patient record" ++
          goString "p1 flu")),
        (ledgerWith (goString "p1") (goString "p1 flu")).afterGet (goString "p1")) :=
  (Query_corrupt_record (ledgerWith (goString "p1") (goString "p1 flu")) (goString "p1")
    (goString "p1 flu") rfl (by decide)).1 (by decide!)

/-- Claim C6 as stated fails: an empty object, `null` and an object with an
unrelated field `name` are not record encodings, yet the query succeeds on each
of them and returns the serialization of the zero-valued record. -/
theorem Query_accepts_non_records :
    (Query (ledgerWith (goString "p1") (goString "\x7b\x7d")) (goString "getPatientRecord")
        [goString "p1"]).1 =
      (some (goString
        "\x7b\"patientId\":\"\",\"age\":0,\"gender\":\"\",\"illness\":\"\"\x7d"), none) ∧
    (Query (ledgerWith (goString "p1") (goString "null")) (goString "getPatientRecord")
        [goString "p1"]).1 =
      (some (goString
        "\x7b\"patientId\":\"\",\"age\":0,\"gender\":\"\",\"illness\":\"\"\x7d"), none) ∧
    (Query (ledgerWith (goString "p1") (goString "\x7b\"name\":\"x\"\x7d"))
        (goString "getPatientRecord") [goString "p1"]).1 =
      (some (goString
        "\x7b\"patientId\":\"\",\"age\":0,\"gender\":\"\",\"illness\":\"\"\x7d"), none) := by
  decide!

/-! ### Writing and reading a number -/

theorem ofNat_toNat_eq (b : UInt8) (n : Nat) (h : n = b.toNat) : UInt8.ofNat n = b := by
  apply UInt8.toNat.inj
  rw [h, UInt8.toNat_ofNat_of_lt b.toNat_lt_size]

theorem toNat_ofNat_lt (n : Nat) (h : n < 256) : (UInt8.ofNat n).toNat = n :=
  UInt8.toNat_ofNat_of_lt h

theorem digitsValueFrom_append (n : Nat) (a b : Bytes) :
    digitsValueFrom n (a ++ b) = digitsValueFrom (digitsValueFrom n a) b := by
  simp [digitsValueFrom, List.foldl_append]

/-- The digits `formatDigits` puts in front of the accumulator. -/
theorem formatDigits_spec : ∀ (fuel n : Nat) (acc : Bytes), n < fuel →
    ∃ ds : Bytes, formatDigits fuel n acc = ds ++ acc ∧
      (∀ c ∈ ds, isDigit c = true) ∧ digitsValue ds = n ∧
      (n = 0 → ds = [0x30]) ∧
      (0 < n → ∃ c cs, ds = c :: cs ∧ 49 ≤ c.toNat ∧ c.toNat ≤ 57) := by
  intro fuel
  induction fuel with
  | zero => intro n acc hlt; omega
  | succ fuel ih =>
    intro n acc hn
    have hd : (UInt8.ofNat (48 + n % 10)).toNat = 48 + n % 10 :=
      toNat_ofNat_lt _ (by omega)
    by_cases h10 : n / 10 = 0
    · have hlt : n < 10 := by omega
      refine ⟨[UInt8.ofNat (48 + n % 10)], ?_, ?_, ?_, ?_, ?_⟩
      · simp [formatDigits, h10]
      · intro c hc
        simp only [List.mem_singleton] at hc
        rw [hc, isDigit_iff, hd]; omega
      · simp only [digitsValue, digitsValueFrom, List.foldl_cons, List.foldl_nil, hd]
        omega
      · intro h0; subst h0; rfl
      · intro hpos
        exact ⟨_, [], rfl, by rw [hd]; omega, by rw [hd]; omega⟩
    · obtain ⟨ds, h1, h2, h3, _, h5⟩ :=
        ih (n / 10) (UInt8.ofNat (48 + n % 10) :: acc) (by omega)
      refine ⟨ds ++ [UInt8.ofNat (48 + n % 10)], ?_, ?_, ?_, ?_, ?_⟩
      · simp [formatDigits, h10, h1]
      · intro c hc
        rcases List.mem_append.1 hc with hfront | hlast
        · exact h2 c hfront
        · rw [List.mem_singleton.1 hlast, isDigit_iff, hd]; omega
      · have hv : digitsValueFrom 0 ds = n / 10 := h3
        simp only [digitsValue, digitsValueFrom_append, hv]
        simp only [digitsValueFrom, List.foldl_cons, List.foldl_nil, hd]
        omega
      · intro h0; omega
      · intro _
        obtain ⟨c, cs, hds, hc1, hc2⟩ := h5 (by omega)
        exact ⟨c, cs ++ [UInt8.ofNat (48 + n % 10)], by rw [hds]; rfl, hc1, hc2⟩

theorem FormatUint_spec (n : Nat) :
    (∀ c ∈ FormatUint n, isDigit c = true) ∧ digitsValue (FormatUint n) = n ∧
      (n = 0 → FormatUint n = [0x30]) ∧
      (0 < n → ∃ c cs, FormatUint n = c :: cs ∧ 49 ≤ c.toNat ∧ c.toNat ≤ 57) := by
  obtain ⟨ds, h1, h2, h3, h4, h5⟩ := formatDigits_spec (n + 1) n [] (Nat.lt_succ_self n)
  have : FormatUint n = ds := by rw [FormatUint, h1, List.append_nil]
  rw [this]
  exact ⟨h2, h3, h4, h5⟩

theorem FormatUint_ne_nil (n : Nat) : FormatUint n ≠ [] := by
  obtain ⟨_, _, h0, hpos⟩ := FormatUint_spec n
  rcases Nat.eq_zero_or_pos n with h | h
  · rw [h0 h]; simp
  · obtain ⟨c, cs, hc, _⟩ := hpos h
    rw [hc]; simp

/-- The text `strconv.Itoa` writes is a decimal text of the number. -/
theorem DecimalText_Itoa (n : Int) : DecimalText (Itoa n) n := by
  obtain ⟨hd, hv, _, _⟩ := FormatUint_spec n.natAbs
  refine ⟨FormatUint n.natAbs, FormatUint_ne_nil _, hd, ?_⟩
  unfold Itoa
  by_cases hneg : n < 0
  · rw [if_pos hneg]
    right; right
    refine ⟨rfl, ?_⟩
    rw [hv, Int.ofNat_natAbs_of_nonpos (le_of_lt hneg), neg_neg]
  · rw [if_neg hneg]
    left
    refine ⟨rfl, ?_⟩
    rw [hv, Int.natAbs_of_nonneg (not_lt.mp hneg)]

/-- Reading back what `strconv.Itoa` wrote. -/
theorem ParseInt_Itoa (n : Int) (h1 : minInt ≤ n) (h2 : n ≤ maxInt) :
    ParseInt (Itoa n) 64 = some n :=
  (Atoi_eq_some_iff (Itoa n) n).2 ⟨DecimalText_Itoa n, h1, h2⟩

theorem takeWhile_digits (cs : Bytes) (h : ∀ c ∈ cs, isDigit c = true) (x : UInt8) (r : Bytes)
    (hx : isDigit x = false) : (cs ++ x :: r).takeWhile isDigit = cs := by
  induction cs with
  | nil => simp [List.takeWhile_cons, hx]
  | cons c cs ih =>
    have hc : isDigit c = true := h c (List.mem_cons_self c cs)
    have := ih (fun d hd => h d (List.mem_cons_of_mem c hd))
    simp [List.takeWhile_cons, hc, this]

theorem dropWhile_digits (cs : Bytes) (h : ∀ c ∈ cs, isDigit c = true) (x : UInt8) (r : Bytes)
    (hx : isDigit x = false) : (cs ++ x :: r).dropWhile isDigit = x :: r := by
  induction cs with
  | nil => simp [List.dropWhile_cons, hx]
  | cons c cs ih =>
    have hc : isDigit c = true := h c (List.mem_cons_self c cs)
    have := ih (fun d hd => h d (List.mem_cons_of_mem c hd))
    simp [List.dropWhile_cons, hc, this]

theorem byte_ne_of_toNat_ne (c : UInt8) (k : Nat) (hk : k < 256) (h : c.toNat ≠ k) :
    ¬ c = UInt8.ofNat k := fun hc => h ((byte_eq_iff c k hk).1 hc)

theorem scanInt_FormatUint (m : Nat) (rest : Bytes) :
    scanInt (FormatUint m ++ 0x2C :: rest) = some (FormatUint m, 0x2C :: rest) := by
  obtain ⟨hd, _, h0, hpos⟩ := FormatUint_spec m
  rcases Nat.eq_zero_or_pos m with h | h
  · rw [h0 h]
    simp [scanInt]
  · obtain ⟨c, cs, hc, hc1, hc2⟩ := hpos h
    rw [hc] at hd ⊢
    have hne : ¬ c = 0x30 := byte_ne_of_toNat_ne c 48 (by norm_num) (by omega)
    have hdc : isDigit c = true := hd c (List.mem_cons_self c cs)
    have hcs : ∀ d ∈ cs, isDigit d = true := fun d hd1 => hd d (List.mem_cons_of_mem c hd1)
    have ht := takeWhile_digits cs hcs 0x2C rest (by decide)
    have hdr := dropWhile_digits cs hcs 0x2C rest (by decide)
    simp [scanInt, hne, hdc, ht, hdr]

theorem scanSign_FormatUint (m : Nat) (rest : Bytes) :
    scanSign (FormatUint m ++ rest) = ([], FormatUint m ++ rest) := by
  obtain ⟨hd, _, h0, hpos⟩ := FormatUint_spec m
  rcases Nat.eq_zero_or_pos m with h | h
  · rw [h0 h]; simp [scanSign]
  · obtain ⟨c, cs, hc, hc1, hc2⟩ := hpos h
    rw [hc]
    have hne : ¬ c = 0x2D := byte_ne_of_toNat_ne c 45 (by norm_num) (by omega)
    simp [scanSign, hne]

theorem scanNumber_Itoa (n : Int) (rest : Bytes) :
    scanNumber (Itoa n ++ 0x2C :: rest) = some (Itoa n, 0x2C :: rest) := by
  have hfrac : scanFrac (0x2C :: rest) = some ([], 0x2C :: rest) := by simp [scanFrac]
  have hexp : scanExp (0x2C :: rest) = some ([], 0x2C :: rest) := by simp [scanExp]
  unfold Itoa
  by_cases hneg : n < 0
  · rw [if_pos hneg]
    have hs : scanSign ((45 :: FormatUint n.natAbs) ++ 0x2C :: rest) =
        ([45], FormatUint n.natAbs ++ 0x2C :: rest) := by simp [scanSign]
    unfold scanNumber
    rw [hs]
    simp only [scanInt_FormatUint, hfrac, hexp]
    simp
  · rw [if_neg hneg]
    unfold scanNumber
    rw [scanSign_FormatUint]
    simp only [scanInt_FormatUint, hfrac, hexp]
    simp

/-! ### Runes -/

theorem inRange_iff (b : UInt8) (lo hi : Nat) :
    inRange b lo hi = true ↔ lo ≤ b.toNat ∧ b.toNat ≤ hi := by
  simp [inRange]

theorem DecodeRune_ascii (c : UInt8) (r : Bytes) (h : c.toNat < 0x80) :
    DecodeRune (c :: r) = (c.toNat, 1) := by
  simp [DecodeRune, h]

theorem EncodeRune_two (b0 b1 : UInt8) (h0 : 0xC2 ≤ b0.toNat ∧ b0.toNat ≤ 0xDF)
    (h1 : 0x80 ≤ b1.toNat ∧ b1.toNat ≤ 0xBF) :
    EncodeRune ((b0.toNat % 32) * 64 + b1.toNat % 64) = [b0, b1] := by
  have e1 : ¬ (b0.toNat % 32) * 64 + b1.toNat % 64 ≤ 0x7F := by omega
  have e2 : (b0.toNat % 32) * 64 + b1.toNat % 64 ≤ 0x7FF := by omega
  rw [EncodeRune, if_neg e1, if_pos e2]
  rw [ofNat_toNat_eq b0 _ (by omega), ofNat_toNat_eq b1 _ (by omega)]

theorem EncodeRune_three (b0 b1 b2 : UInt8) (h0 : 0xE0 ≤ b0.toNat ∧ b0.toNat ≤ 0xEF)
    (h1 : (if b0.toNat = 0xE0 then 0xA0 else 0x80) ≤ b1.toNat ∧
      b1.toNat ≤ (if b0.toNat = 0xED then 0x9F else 0xBF))
    (h2 : 0x80 ≤ b2.toNat ∧ b2.toNat ≤ 0xBF) :
    EncodeRune (((b0.toNat % 16) * 64 + b1.toNat % 64) * 64 + b2.toNat % 64) =
      [b0, b1, b2] := by
  have e1 : ¬ ((b0.toNat % 16) * 64 + b1.toNat % 64) * 64 + b2.toNat % 64 ≤ 0x7F := by
    split_ifs at h1 <;> omega
  have e2 : ¬ ((b0.toNat % 16) * 64 + b1.toNat % 64) * 64 + b2.toNat % 64 ≤ 0x7FF := by
    split_ifs at h1 <;> omega
  have e3 : ¬ (((b0.toNat % 16) * 64 + b1.toNat % 64) * 64 + b2.toNat % 64 > 0x10FFFF ∨
      (0xD800 ≤ ((b0.toNat % 16) * 64 + b1.toNat % 64) * 64 + b2.toNat % 64 ∧
        ((b0.toNat % 16) * 64 + b1.toNat % 64) * 64 + b2.toNat % 64 ≤ 0xDFFF)) := by
    split_ifs at h1 <;> omega
  have e4 : ((b0.toNat % 16) * 64 + b1.toNat % 64) * 64 + b2.toNat % 64 ≤ 0xFFFF := by omega
  rw [EncodeRune, if_neg e1, if_neg e2, if_neg e3, if_pos e4]
  rw [ofNat_toNat_eq b0 _ (by split_ifs at h1 <;> omega),
    ofNat_toNat_eq b1 _ (by split_ifs at h1 <;> omega),
    ofNat_toNat_eq b2 _ (by omega)]

theorem EncodeRune_four (b0 b1 b2 b3 : UInt8) (h0 : 0xF0 ≤ b0.toNat ∧ b0.toNat ≤ 0xF4)
    (h1 : (if b0.toNat = 0xF0 then 0x90 else 0x80) ≤ b1.toNat ∧
      b1.toNat ≤ (if b0.toNat = 0xF4 then 0x8F else 0xBF))
    (h2 : 0x80 ≤ b2.toNat ∧ b2.toNat ≤ 0xBF) (h3 : 0x80 ≤ b3.toNat ∧ b3.toNat ≤ 0xBF) :
    EncodeRune ((((b0.toNat % 8) * 64 + b1.toNat % 64) * 64 + b2.toNat % 64) * 64 +
      b3.toNat % 64) = [b0, b1, b2, b3] := by
  have e1 : ¬ (((b0.toNat % 8) * 64 + b1.toNat % 64) * 64 + b2.toNat % 64) * 64 +
      b3.toNat % 64 ≤ 0x7F := by split_ifs at h1 <;> omega
  have e2 : ¬ (((b0.toNat % 8) * 64 + b1.toNat % 64) * 64 + b2.toNat % 64) * 64 +
      b3.toNat % 64 ≤ 0x7FF := by split_ifs at h1 <;> omega
  have e3 : ¬ ((((b0.toNat % 8) * 64 + b1.toNat % 64) * 64 + b2.toNat % 64) * 64 +
      b3.toNat % 64 > 0x10FFFF ∨
      (0xD800 ≤ (((b0.toNat % 8) * 64 + b1.toNat % 64) * 64 + b2.toNat % 64) * 64 +
        b3.toNat % 64 ∧
        (((b0.toNat % 8) * 64 + b1.toNat % 64) * 64 + b2.toNat % 64) * 64 +
          b3.toNat % 64 ≤ 0xDFFF)) := by
    split_ifs at h1 <;> omega
  have e4 : ¬ (((b0.toNat % 8) * 64 + b1.toNat % 64) * 64 + b2.toNat % 64) * 64 +
      b3.toNat % 64 ≤ 0xFFFF := by split_ifs at h1 <;> omega
  rw [EncodeRune, if_neg e1, if_neg e2, if_neg e3, if_neg e4]
  rw [ofNat_toNat_eq b0 _ (by split_ifs at h1 <;> omega),
    ofNat_toNat_eq b1 _ (by split_ifs at h1 <;> omega),
    ofNat_toNat_eq b2 _ (by omega), ofNat_toNat_eq b3 _ (by omega)]

/-- A well-formed multi-byte rune at the front of `s`: its width, its bytes, its
encoding, and that decoding looks at these bytes only. -/
theorem DecodeRune_multibyte (b0 : UInt8) (rest : Bytes) (hb : 0x80 ≤ b0.toNat)
    (hok : ¬ ((DecodeRune (b0 :: rest)).1 = runeError ∧ (DecodeRune (b0 :: rest)).2 = 1)) :
    2 ≤ (DecodeRune (b0 :: rest)).2 ∧
    (DecodeRune (b0 :: rest)).2 ≤ (b0 :: rest).length ∧
    EncodeRune (DecodeRune (b0 :: rest)).1 = (b0 :: rest).take (DecodeRune (b0 :: rest)).2 ∧
    (∀ t, DecodeRune ((b0 :: rest).take (DecodeRune (b0 :: rest)).2 ++ t) =
      DecodeRune (b0 :: rest)) ∧
    (∀ b ∈ (b0 :: rest).take (DecodeRune (b0 :: rest)).2, 0x80 ≤ b.toNat) := by
  have hlt : ¬ b0.toNat < 0x80 := by omega
  by_cases h2 : 0xC2 ≤ b0.toNat ∧ b0.toNat ≤ 0xDF
  · cases rest with
    | nil => simp [DecodeRune, hlt, h2] at hok
    | cons b1 r =>
      by_cases hr : inRange b1 0x80 0xBF = true
      · have hr1 := (inRange_iff _ _ _).1 hr
        have hd : DecodeRune (b0 :: b1 :: r) = ((b0.toNat % 32) * 64 + b1.toNat % 64, 2) := by
          simp [DecodeRune, hlt, h2, hr]
        rw [hd]
        refine ⟨by norm_num, by simp, ?_, ?_, ?_⟩
        · exact EncodeRune_two b0 b1 h2 hr1
        · intro t
          simp [DecodeRune, hlt, h2, hr]
        · intro b hb1
          simp at hb1
          rcases hb1 with h | h <;> subst h <;> omega
      · simp [DecodeRune, hlt, h2, hr, runeError] at hok
  · by_cases h3 : 0xE0 ≤ b0.toNat ∧ b0.toNat ≤ 0xEF
    · rcases rest with _ | ⟨b1, _ | ⟨b2, r⟩⟩
      · simp [DecodeRune, hlt, h2, h3] at hok
      · simp [DecodeRune, hlt, h2, h3] at hok
      · by_cases hr : (inRange b1 (if b0.toNat = 0xE0 then 0xA0 else 0x80)
            (if b0.toNat = 0xED then 0x9F else 0xBF) && inRange b2 0x80 0xBF) = true
        · have hr0 := hr
          rw [Bool.and_eq_true, inRange_iff, inRange_iff] at hr0
          have hd : DecodeRune (b0 :: b1 :: b2 :: r) =
              (((b0.toNat % 16) * 64 + b1.toNat % 64) * 64 + b2.toNat % 64, 3) := by
            simp only [DecodeRune, hlt, h2, h3, if_false, if_true, hr, and_self]
          rw [hd]
          refine ⟨by norm_num, by simp, ?_, ?_, ?_⟩
          · exact EncodeRune_three b0 b1 b2 h3 hr0.1 hr0.2
          · intro t
            simp only [List.take, List.cons_append, List.nil_append, DecodeRune, hlt, h2, h3,
              if_false, if_true, hr, and_self]
          · intro b hb1
            have h1 := hr0.1
            simp at hb1
            rcases hb1 with h | h | h <;> subst h <;> split_ifs at h1 <;> omega
        · simp only [DecodeRune, hlt, h2, h3, if_false, if_true, hr, and_self, runeError] at hok
          simp at hok
    · by_cases h4 : 0xF0 ≤ b0.toNat ∧ b0.toNat ≤ 0xF4
      · rcases rest with _ | ⟨b1, _ | ⟨b2, _ | ⟨b3, r⟩⟩⟩
        · simp [DecodeRune, hlt, h2, h3, h4] at hok
        · simp [DecodeRune, hlt, h2, h3, h4] at hok
        · simp [DecodeRune, hlt, h2, h3, h4] at hok
        · by_cases hr : (inRange b1 (if b0.toNat = 0xF0 then 0x90 else 0x80)
              (if b0.toNat = 0xF4 then 0x8F else 0xBF) && inRange b2 0x80 0xBF &&
              inRange b3 0x80 0xBF) = true
          · have hr0 := hr
            rw [Bool.and_eq_true, Bool.and_eq_true, inRange_iff, inRange_iff, inRange_iff]
              at hr0
            have hd : DecodeRune (b0 :: b1 :: b2 :: b3 :: r) =
                ((((b0.toNat % 8) * 64 + b1.toNat % 64) * 64 + b2.toNat % 64) * 64 +
                  b3.toNat % 64, 4) := by
              simp only [DecodeRune, hlt, h2, h3, h4, if_false, if_true, hr, and_self]
            rw [hd]
            refine ⟨by norm_num, by simp, ?_, ?_, ?_⟩
            · exact EncodeRune_four b0 b1 b2 b3 h4 hr0.1.1 hr0.1.2 hr0.2
            · intro t
              simp only [List.take, List.cons_append, List.nil_append, DecodeRune, hlt, h2, h3,
                h4, if_false, if_true, hr, and_self]
            · intro b hb1
              have h1 := hr0.1.1
              simp at hb1
              rcases hb1 with h | h | h | h <;> subst h <;> split_ifs at h1 <;> omega
          · simp only [DecodeRune, hlt, h2, h3, h4, if_false, if_true, hr, and_self, runeError] at hok
            simp at hok
      · simp [DecodeRune, hlt, h2, h3, h4, runeError] at hok

/-! ### String literals -/

theorem emit_some (out o rest : Bytes) : emit out (some (o, rest)) = some (out ++ o, rest) := rfl

theorem validLoop_cons (fuel : Nat) (c : UInt8) (r : Bytes) :
    validLoop (fuel + 1) (c :: r) = true ↔
      ¬ ((DecodeRune (c :: r)).1 = runeError ∧ (DecodeRune (c :: r)).2 = 1) ∧
        validLoop fuel ((c :: r).drop (DecodeRune (c :: r)).2) = true := by
  simp only [validLoop, Bool.and_eq_true, Bool.not_eq_true', Bool.and_eq_false_iff,
    decide_eq_true_eq, decide_eq_false_iff_not]
  tauto

/-- Plain text between quotes scans to itself. -/
theorem scanString_plain : ∀ (fuel : Nat) (S : Bytes), S.length ≤ fuel →
    validLoop fuel S = true → (∀ b ∈ S, 0x20 ≤ b.toNat ∧ b ≠ 0x22 ∧ b ≠ 0x5C) →
    ∀ (fuel2 : Nat) (rest : Bytes), S.length < fuel2 →
      scanString fuel2 (S ++ 0x22 :: rest) = some (S, rest) := by
  intro fuel
  induction fuel with
  | zero =>
    intro S hlen _ _ fuel2 rest hf
    have hS : S = [] := List.length_eq_zero.mp (Nat.le_zero.mp hlen)
    subst hS
    obtain ⟨f2, rfl⟩ : ∃ f2, fuel2 = f2 + 1 := ⟨fuel2 - 1, by simp at hf; omega⟩
    simp [scanString]
  | succ fuel ih =>
    intro S hlen hvalid hplain fuel2 rest hf
    obtain ⟨f2, rfl⟩ : ∃ f2, fuel2 = f2 + 1 := ⟨fuel2 - 1, by omega⟩
    cases S with
    | nil => simp [scanString]
    | cons c r =>
      obtain ⟨h20, h22, h5c⟩ := hplain c (List.mem_cons_self c r)
      have hr : ∀ b ∈ r, 0x20 ≤ b.toNat ∧ b ≠ 0x22 ∧ b ≠ 0x5C :=
        fun b hb => hplain b (List.mem_cons_of_mem c hb)
      rw [validLoop_cons] at hvalid
      obtain ⟨hok, hrest⟩ := hvalid
      have hn20 : ¬ c.toNat < 0x20 := by omega
      simp only [List.length_cons] at hlen hf
      by_cases h80 : c.toNat < 0x80
      · rw [DecodeRune_ascii c r h80] at hrest
        have := ih r (by omega) hrest hr f2 rest (by omega)
        simp only [List.cons_append, scanString, h22, h5c, hn20, h80, if_false, if_true, this,
          emit_some, List.singleton_append, List.nil_append, List.cons_append]
      · obtain ⟨hk2, hklen, henc, hpre, hhigh⟩ := DecodeRune_multibyte c r (by omega) hok
        have hsplit : (c :: r) ++ 0x22 :: rest =
            (c :: r).take (DecodeRune (c :: r)).2 ++
              ((c :: r).drop (DecodeRune (c :: r)).2 ++ 0x22 :: rest) := by
          rw [← List.append_assoc, List.take_append_drop]
        have hdec : DecodeRune ((c :: r) ++ 0x22 :: rest) = DecodeRune (c :: r) := by
          rw [hsplit]; exact hpre _
        have hdrop : ((c :: r) ++ 0x22 :: rest).drop (DecodeRune (c :: r)).2 =
            (c :: r).drop (DecodeRune (c :: r)).2 ++ 0x22 :: rest :=
          List.drop_append_of_le_length hklen
        have hsub : ∀ b ∈ (c :: r).drop (DecodeRune (c :: r)).2,
            0x20 ≤ b.toNat ∧ b ≠ 0x22 ∧ b ≠ 0x5C :=
          fun b hb => hplain b (List.mem_of_mem_drop hb)
        have hl : ((c :: r).drop (DecodeRune (c :: r)).2).length ≤ fuel := by
          simp only [List.length_drop, List.length_cons]; omega
        have := ih _ hl hrest hsub f2 rest (by
          simp only [List.length_drop, List.length_cons]; omega)
        have hgoal : scanString (f2 + 1) (c :: (r ++ 0x22 :: rest)) =
            emit (EncodeRune (DecodeRune (c :: (r ++ 0x22 :: rest))).1)
              (scanString f2 ((c :: (r ++ 0x22 :: rest)).drop
                (DecodeRune (c :: (r ++ 0x22 :: rest))).2)) := by
          simp only [scanString, h22, h5c, hn20, h80, if_false]
        rw [List.cons_append, hgoal]
        rw [← List.cons_append, hdec, hdrop, this, emit_some, henc, List.take_append_drop]

theorem hexVal_hexDigit (n : Nat) (h : n < 16) : hexVal (hexDigit n) = some n := by
  interval_cases n <;> decide

/-- One step of the scanner over a well-formed multi-byte rune. -/
theorem scanString_multibyte (c : UInt8) (r : Bytes) (h80 : 0x80 ≤ c.toNat)
    (hok : ¬ ((DecodeRune (c :: r)).1 = runeError ∧ (DecodeRune (c :: r)).2 = 1))
    (f : Nat) (tail : Bytes) :
    scanString (f + 1) ((c :: r).take (DecodeRune (c :: r)).2 ++ tail) =
      emit ((c :: r).take (DecodeRune (c :: r)).2) (scanString f tail) := by
  obtain ⟨hk2, hklen, henc, hpre, _⟩ := DecodeRune_multibyte c r h80 hok
  obtain ⟨k, hk⟩ : ∃ k, (DecodeRune (c :: r)).2 = k + 1 := ⟨(DecodeRune (c :: r)).2 - 1, by omega⟩
  have h22 : c ≠ 0x22 := by
    intro h; rw [h] at h80; revert h80; decide
  have h5c : c ≠ 0x5C := by
    intro h; rw [h] at h80; revert h80; decide
  have hn20 : ¬ c.toNat < 0x20 := by omega
  have hn80 : ¬ c.toNat < 0x80 := by omega
  have hdec := hpre tail
  have hlen : ((c :: r).take (DecodeRune (c :: r)).2).length = (DecodeRune (c :: r)).2 :=
    List.length_take_of_le hklen
  have hdrop : ((c :: r).take (DecodeRune (c :: r)).2 ++ tail).drop (DecodeRune (c :: r)).2 =
      tail := by
    rw [List.drop_append_of_le_length (by omega), List.drop_of_length_le (by omega),
      List.nil_append]
  have hstep : ∀ s : Bytes, s = (c :: r).take (DecodeRune (c :: r)).2 ++ tail →
      scanString (f + 1) s = emit (EncodeRune (DecodeRune s).1)
        (scanString f (s.drop (DecodeRune s).2)) := by
    intro s hs
    have hs0 : s = c :: (r.take k ++ tail) := by
      rw [hs, hk, List.take_succ_cons, List.cons_append]
    rw [hs0]
    simp only [scanString, h22, h5c, hn20, hn80, if_false]
  rw [hstep _ rfl, hdec, hdrop, henc]

theorem scanString_u4 (a b c d : UInt8) (x y z w : Nat) (ha : hexVal a = some x)
    (hb : hexVal b = some y) (hc : hexVal c = some z) (hd : hexVal d = some w)
    (hns : ¬ (0xD800 ≤ ((x * 16 + y) * 16 + z) * 16 + w ∧
      ((x * 16 + y) * 16 + z) * 16 + w < 0xE000)) (f : Nat) (tail : Bytes) :
    scanString (f + 1) (0x5C :: 0x75 :: a :: b :: c :: d :: tail) =
      emit (EncodeRune (((x * 16 + y) * 16 + z) * 16 + w)) (scanString f tail) := by
  have hg : getu4 (0x5C :: 0x75 :: a :: b :: c :: d :: tail) =
      some (((x * 16 + y) * 16 + z) * 16 + w) := by
    simp [getu4, ha, hb, hc, hd]
  have h1 : ¬ ((0x5C : UInt8) = 0x22) := by decide
  simp only [scanString, h1, if_false, if_true, hg, hns, List.drop]

theorem EncodeRune_ascii (b : UInt8) (h : b.toNat < 0x80) : EncodeRune b.toNat = [b] := by
  rw [EncodeRune, if_pos (by omega), ofNat_toNat_eq b _ rfl]

/-- One step of the scanner over what `appendString` writes for an ASCII
byte. -/
theorem scanString_escaped_ascii (b : UInt8) (hb : b.toNat < 0x80) (f : Nat) (tail : Bytes) :
    scanString (f + 1) ((if htmlSafe b = true then [b] else escapeByte b) ++ tail) =
      emit [b] (scanString f tail) := by
  by_cases hs : htmlSafe b = true
  · rw [if_pos hs]
    simp only [htmlSafe, Bool.and_eq_true, decide_eq_true_eq, Bool.not_eq_true',
      Bool.or_eq_false_iff, decide_eq_false_iff_not] at hs
    obtain ⟨⟨h20, _⟩, ⟨⟨⟨⟨h22, _⟩, _⟩, _⟩, h5c⟩⟩ := hs
    have hn20 : ¬ b.toNat < 0x20 := by omega
    simp only [List.singleton_append, scanString, h22, h5c, hn20, hb, if_false, if_true]
  · rw [if_neg hs]
    unfold escapeByte
    by_cases h1 : b = 0x5C ∨ b = 0x22
    · rw [if_pos h1]
      rcases h1 with h | h <;> subst h <;>
        simp [scanString, simpleEscape]
    · rw [if_neg h1]
      by_cases h2 : b = 0x08
      · subst h2; simp [scanString, simpleEscape]
      · rw [if_neg h2]
        by_cases h3 : b = 0x0C
        · subst h3; simp [scanString, simpleEscape]
        · rw [if_neg h3]
          by_cases h4 : b = 0x0A
          · subst h4; simp [scanString, simpleEscape]
          · rw [if_neg h4]
            by_cases h5 : b = 0x0D
            · subst h5; simp [scanString, simpleEscape]
            · rw [if_neg h5]
              by_cases h6 : b = 0x09
              · subst h6; simp [scanString, simpleEscape]
              · rw [if_neg h6]
                have hx := scanString_u4 0x30 0x30 (hexDigit (b.toNat / 16))
                  (hexDigit (b.toNat % 16)) 0 0 (b.toNat / 16) (b.toNat % 16) (by decide)
                  (by decide) (hexVal_hexDigit _ (by omega)) (hexVal_hexDigit _ (by omega))
                  (by omega) f tail
                have hv : ((0 * 16 + 0) * 16 + b.toNat / 16) * 16 + b.toNat % 16 = b.toNat := by
                  omega
                rw [hv, EncodeRune_ascii b hb] at hx
                exact hx

theorem escapePiece_length (b : UInt8) :
    1 ≤ (if htmlSafe b = true then [b] else escapeByte b).length := by
  unfold escapeByte
  split_ifs <;> simp

/-- Reading back what `appendString` wrote: the scanner returns the original
text when it is well-formed UTF-8. -/
theorem scanString_escapeLoop : ∀ (fuel : Nat) (S : Bytes), S.length ≤ fuel →
    validLoop fuel S = true → ∀ (fuel2 : Nat) (rest : Bytes),
      (escapeLoop fuel S).length < fuel2 →
      scanString fuel2 (escapeLoop fuel S ++ 0x22 :: rest) = some (S, rest) := by
  intro fuel
  induction fuel with
  | zero =>
    intro S hlen _ fuel2 rest hf
    have hS : S = [] := List.length_eq_zero.mp (Nat.le_zero.mp hlen)
    subst hS
    obtain ⟨f2, rfl⟩ : ∃ f2, fuel2 = f2 + 1 := ⟨fuel2 - 1, by omega⟩
    simp [escapeLoop, scanString]
  | succ fuel ih =>
    intro S hlen hvalid fuel2 rest hf
    obtain ⟨f2, rfl⟩ : ∃ f2, fuel2 = f2 + 1 := ⟨fuel2 - 1, by omega⟩
    cases S with
    | nil => simp [escapeLoop, scanString]
    | cons c r =>
      rw [validLoop_cons] at hvalid
      obtain ⟨hok, hrest⟩ := hvalid
      simp only [List.length_cons] at hlen
      by_cases h80 : c.toNat < 0x80
      · rw [DecodeRune_ascii c r h80] at hrest
        have he : escapeLoop (fuel + 1) (c :: r) =
            (if htmlSafe c = true then [c] else escapeByte c) ++ escapeLoop fuel r := by
          simp only [escapeLoop, h80, if_true]
        rw [he] at hf ⊢
        have hp := escapePiece_length c
        rw [List.length_append] at hf
        have := ih r (by omega) hrest f2 rest (by omega)
        rw [List.append_assoc, scanString_escaped_ascii c h80, this, emit_some]
        rfl
      · obtain ⟨hk2, hklen, henc, _, _⟩ := DecodeRune_multibyte c r (by omega) hok
        have hl : ((c :: r).drop (DecodeRune (c :: r)).2).length ≤ fuel := by
          simp only [List.length_drop, List.length_cons]; omega
        by_cases hsep : (DecodeRune (c :: r)).1 = 0x2028 ∨ (DecodeRune (c :: r)).1 = 0x2029
        · have he : escapeLoop (fuel + 1) (c :: r) =
              [0x5C, 0x75, 0x32, 0x30, 0x32, hexDigit ((DecodeRune (c :: r)).1 % 16)] ++
                escapeLoop fuel ((c :: r).drop (DecodeRune (c :: r)).2) := by
            simp only [escapeLoop, h80, if_false, hok, hsep, if_true]
            rfl
          rw [he] at hf ⊢
          simp only [List.length_append, List.length_cons, List.length_nil] at hf
          have := ih _ hl hrest f2 rest (by omega)
          have hx := scanString_u4 0x32 0x30 0x32 (hexDigit ((DecodeRune (c :: r)).1 % 16))
            2 0 2 ((DecodeRune (c :: r)).1 % 16) (by decide) (by decide) (by decide)
            (hexVal_hexDigit _ (by omega)) (by omega) f2
            (escapeLoop fuel ((c :: r).drop (DecodeRune (c :: r)).2) ++ 0x22 :: rest)
          have hv : ((2 * 16 + 0) * 16 + 2) * 16 + (DecodeRune (c :: r)).1 % 16 =
              (DecodeRune (c :: r)).1 := by
            rcases hsep with h | h <;> rw [h]
          rw [hv, henc, this, emit_some, List.take_append_drop] at hx
          exact hx
        · have he : escapeLoop (fuel + 1) (c :: r) =
              (c :: r).take (DecodeRune (c :: r)).2 ++
                escapeLoop fuel ((c :: r).drop (DecodeRune (c :: r)).2) := by
            simp only [escapeLoop, h80, if_false, hok, hsep]
          rw [he] at hf ⊢
          rw [List.length_append, List.length_take_of_le hklen] at hf
          have := ih _ hl hrest f2 rest (by omega)
          rw [List.append_assoc, scanString_multibyte c r (by omega) hok, this, emit_some,
            List.take_append_drop]

/-- Plain text between quotes, read by the scanner. -/
theorem parseString_plain (S : Bytes) (hp : plainText S) (rest : Bytes) :
    parseString (S ++ 0x22 :: rest) = some (S, rest) := by
  unfold parseString
  exact scanString_plain S.length S (Nat.le_refl _) hp.1 hp.2 _ rest (by simp)

/-! ### The text of a record -/

theorem skipSpace_cons_of_not_space (c : UInt8) (r : Bytes) (h : isSpace c = false) :
    skipSpace (c :: r) = c :: r := by
  simp [skipSpace, List.dropWhile_cons, h]

theorem skipSpace_append (w : Bytes) (hw : ∀ b ∈ w, isSpace b = true) (c : UInt8) (r : Bytes)
    (h : isSpace c = false) : skipSpace (w ++ c :: r) = c :: r := by
  induction w with
  | nil => exact skipSpace_cons_of_not_space c r h
  | cons b w ih =>
    have hb : isSpace b = true := hw b (List.mem_cons_self b w)
    have := ih (fun x hx => hw x (List.mem_cons_of_mem b hx))
    simp only [skipSpace] at this ⊢
    simp [List.dropWhile_cons, hb, this]

theorem parseValue_string (f depth : Nat) (body s rest : Bytes)
    (h : parseString body = some (s, rest)) :
    parseValue (f + 1) depth (0x22 :: body) = some (.string s, rest) := by
  simp [parseValue, h]

theorem parseValue_number (f depth : Nat) (c : UInt8) (cs lit rest : Bytes)
    (hc : c.toNat = 45 ∨ (48 ≤ c.toNat ∧ c.toNat ≤ 57))
    (h : scanNumber (c :: cs) = some (lit, rest)) :
    parseValue (f + 1) depth (c :: cs) = some (.number lit, rest) := by
  have h1 : ¬ c = 0x7B := byte_ne_of_toNat_ne c 0x7B (by norm_num) (by omega)
  have h2 : ¬ c = 0x5B := byte_ne_of_toNat_ne c 0x5B (by norm_num) (by omega)
  have h3 : ¬ c = 0x22 := byte_ne_of_toNat_ne c 0x22 (by norm_num) (by omega)
  have h4 : ¬ c = 0x74 := byte_ne_of_toNat_ne c 0x74 (by norm_num) (by omega)
  have h5 : ¬ c = 0x66 := byte_ne_of_toNat_ne c 0x66 (by norm_num) (by omega)
  have h6 : ¬ c = 0x6E := byte_ne_of_toNat_ne c 0x6E (by norm_num) (by omega)
  simp only [parseValue, h1, h2, h3, h4, h5, h6, if_false, h]

theorem parseMembers_more (f depth : Nat) (body key r1 r2 : Bytes) (v : JValue)
    (r3 r4 : Bytes) (ms : List (Bytes × JValue)) (r5 : Bytes)
    (hk : parseString body = some (key, r1)) (hc : skipSpace r1 = 0x3A :: r2)
    (hv : parseValue f depth (skipSpace r2) = some (v, r3))
    (hs : skipSpace r3 = 0x2C :: r4)
    (hm : parseMembers f depth (skipSpace r4) = some (ms, r5)) :
    parseMembers (f + 1) depth (0x22 :: body) = some ((key, v) :: ms, r5) := by
  simp [parseMembers, hk, hc, hv, hs, hm]

theorem parseMembers_last (f depth : Nat) (body key r1 r2 : Bytes) (v : JValue)
    (r3 r4 : Bytes)
    (hk : parseString body = some (key, r1)) (hc : skipSpace r1 = 0x3A :: r2)
    (hv : parseValue f depth (skipSpace r2) = some (v, r3))
    (hs : skipSpace r3 = 0x7D :: r4) :
    parseMembers (f + 1) depth (0x22 :: body) = some ([(key, v)], r4) := by
  simp [parseMembers, hk, hc, hv, hs]

theorem parseValue_object (f : Nat) (body : Bytes) (ms : List (Bytes × JValue)) (rest : Bytes)
    (hm : parseMembers f 1 (0x22 :: body) = some (ms, rest)) :
    parseValue (f + 1) 0 (0x7B :: 0x22 :: body) = some (.object ms, rest) := by
  have hd : ¬ (0 + 1 > maxNestingDepth) := by decide
  simp [parseValue, skipSpace, List.dropWhile_cons, isSpace, hm, hd]

theorem Itoa_head (n : Int) :
    ∃ c cs, Itoa n = c :: cs ∧ (c.toNat = 45 ∨ (48 ≤ c.toNat ∧ c.toNat ≤ 57)) := by
  unfold Itoa
  by_cases hneg : n < 0
  · rw [if_pos hneg]
    exact ⟨45, _, rfl, Or.inl (by decide)⟩
  · rw [if_neg hneg]
    obtain ⟨hd, _, _, _⟩ := FormatUint_spec n.natAbs
    cases hf : FormatUint n.natAbs with
    | nil => exact absurd hf (FormatUint_ne_nil _)
    | cons c cs =>
      rw [hf] at hd
      exact ⟨c, cs, rfl, Or.inr ((isDigit_iff c).1 (hd c (List.mem_cons_self c cs)))⟩

theorem plainText_patientId : plainText (goString "patientId") := ⟨by decide, by decide⟩
theorem plainText_age : plainText (goString "age") := ⟨by decide, by decide⟩
theorem plainText_gender : plainText (goString "gender") := ⟨by decide, by decide⟩
theorem plainText_illness : plainText (goString "illness") := ⟨by decide, by decide⟩

/-- A member whose value is a string literal, followed by a comma and further
members. -/
theorem parseMembers_string_more (f : Nat) (w : Bytes) (hw : ∀ b ∈ w, isSpace b = true)
    (key : Bytes) (hkey : plainText key) (l s : Bytes)
    (hl : ∀ rest, parseString (l ++ rest) = some (s, rest))
    (next : Bytes) (ms : List (Bytes × JValue)) (r5 : Bytes)
    (hm : parseMembers (f + 1) 1 (0x22 :: next) = some (ms, r5)) :
    parseMembers (f + 2) 1
        (0x22 :: (key ++ 0x22 :: 0x3A :: (w ++ 0x22 :: (l ++ 0x2C :: (w ++ 0x22 :: next))))) =
      some ((key, .string s) :: ms, r5) := by
  have hk : parseString (key ++ 0x22 :: 0x3A :: (w ++ 0x22 :: (l ++ 0x2C :: (w ++ 0x22 :: next))))
      = some (key, 0x3A :: (w ++ 0x22 :: (l ++ 0x2C :: (w ++ 0x22 :: next)))) :=
    parseString_plain key hkey _
  have hc : skipSpace (0x3A :: (w ++ 0x22 :: (l ++ 0x2C :: (w ++ 0x22 :: next)))) =
      0x3A :: (w ++ 0x22 :: (l ++ 0x2C :: (w ++ 0x22 :: next))) :=
    skipSpace_cons_of_not_space _ _ (by decide)
  have hv : parseValue (f + 1) 1 (skipSpace (w ++ 0x22 :: (l ++ 0x2C :: (w ++ 0x22 :: next)))) =
      some (.string s, 0x2C :: (w ++ 0x22 :: next)) := by
    rw [skipSpace_append w hw 0x22 _ (by decide)]
    exact parseValue_string f 1 _ _ _ (hl _)
  have hs : skipSpace (0x2C :: (w ++ 0x22 :: next)) = 0x2C :: (w ++ 0x22 :: next) :=
    skipSpace_cons_of_not_space _ _ (by decide)
  have hm2 : parseMembers (f + 1) 1 (skipSpace (w ++ 0x22 :: next)) = some (ms, r5) := by
    rw [skipSpace_append w hw 0x22 _ (by decide)]
    exact hm
  exact parseMembers_more (f + 1) 1 _ key _ _ _ _ _ ms r5 hk hc hv hs hm2

/-- A member whose value is the number literal `strconv.Itoa` writes, followed
by a comma and further members. -/
theorem parseMembers_number_more (f : Nat) (w : Bytes) (hw : ∀ b ∈ w, isSpace b = true)
    (key : Bytes) (hkey : plainText key) (n : Int)
    (next : Bytes) (ms : List (Bytes × JValue)) (r5 : Bytes)
    (hm : parseMembers (f + 1) 1 (0x22 :: next) = some (ms, r5)) :
    parseMembers (f + 2) 1
        (0x22 :: (key ++ 0x22 :: 0x3A :: (w ++ (Itoa n ++ 0x2C :: (w ++ 0x22 :: next))))) =
      some ((key, .number (Itoa n)) :: ms, r5) := by
  obtain ⟨c, cs, hcs, hc⟩ := Itoa_head n
  have hsp : isSpace c = false := by
    have h1 : ¬ c = 0x20 := byte_ne_of_toNat_ne c 0x20 (by norm_num) (by omega)
    have h2 : ¬ c = 0x09 := byte_ne_of_toNat_ne c 0x09 (by norm_num) (by omega)
    have h3 : ¬ c = 0x0D := byte_ne_of_toNat_ne c 0x0D (by norm_num) (by omega)
    have h4 : ¬ c = 0x0A := byte_ne_of_toNat_ne c 0x0A (by norm_num) (by omega)
    simp [isSpace, h1, h2, h3, h4]
  have hnum := scanNumber_Itoa n (w ++ 0x22 :: next)
  have hk : parseString (key ++ 0x22 :: 0x3A :: (w ++ (Itoa n ++ 0x2C :: (w ++ 0x22 :: next))))
      = some (key, 0x3A :: (w ++ (Itoa n ++ 0x2C :: (w ++ 0x22 :: next)))) :=
    parseString_plain key hkey _
  have hc1 : skipSpace (0x3A :: (w ++ (Itoa n ++ 0x2C :: (w ++ 0x22 :: next)))) =
      0x3A :: (w ++ (Itoa n ++ 0x2C :: (w ++ 0x22 :: next))) :=
    skipSpace_cons_of_not_space _ _ (by decide)
  have hv : parseValue (f + 1) 1 (skipSpace (w ++ (Itoa n ++ 0x2C :: (w ++ 0x22 :: next)))) =
      some (.number (Itoa n), 0x2C :: (w ++ 0x22 :: next)) := by
    rw [hcs] at hnum ⊢
    rw [List.cons_append, skipSpace_append w hw c _ hsp]
    exact parseValue_number f 1 c _ _ _ hc hnum
  have hs : skipSpace (0x2C :: (w ++ 0x22 :: next)) = 0x2C :: (w ++ 0x22 :: next) :=
    skipSpace_cons_of_not_space _ _ (by decide)
  have hm2 : parseMembers (f + 1) 1 (skipSpace (w ++ 0x22 :: next)) = some (ms, r5) := by
    rw [skipSpace_append w hw 0x22 _ (by decide)]
    exact hm
  exact parseMembers_more (f + 1) 1 _ key _ _ _ _ _ ms r5 hk hc1 hv hs hm2

/-- The last member, whose value is a string literal, and the closing brace. -/
theorem parseMembers_string_last (f : Nat) (w : Bytes) (hw : ∀ b ∈ w, isSpace b = true)
    (key : Bytes) (hkey : plainText key) (l s : Bytes)
    (hl : ∀ rest, parseString (l ++ rest) = some (s, rest)) :
    parseMembers (f + 2) 1 (0x22 :: (key ++ 0x22 :: 0x3A :: (w ++ 0x22 :: (l ++ [0x7D])))) =
      some ([(key, .string s)], []) := by
  have hk : parseString (key ++ 0x22 :: 0x3A :: (w ++ 0x22 :: (l ++ [0x7D])))
      = some (key, 0x3A :: (w ++ 0x22 :: (l ++ [0x7D]))) :=
    parseString_plain key hkey _
  have hc : skipSpace (0x3A :: (w ++ 0x22 :: (l ++ [0x7D]))) =
      0x3A :: (w ++ 0x22 :: (l ++ [0x7D])) :=
    skipSpace_cons_of_not_space _ _ (by decide)
  have hv : parseValue (f + 1) 1 (skipSpace (w ++ 0x22 :: (l ++ [0x7D]))) =
      some (.string s, [0x7D]) := by
    rw [skipSpace_append w hw 0x22 _ (by decide)]
    exact parseValue_string f 1 _ _ _ (hl _)
  have hs : skipSpace ([0x7D] : Bytes) = 0x7D :: [] :=
    skipSpace_cons_of_not_space _ _ (by decide)
  exact parseMembers_last (f + 1) 1 _ key _ _ _ _ _ hk hc hv hs

/-- The value the scanner reads from the text of a record. -/
theorem parseJSON_recordText (w : Bytes) (hw : ∀ b ∈ w, isSpace b = true)
    (l1 s1 l3 s3 l4 s4 : Bytes) (n : Int)
    (h1 : ∀ rest, parseString (l1 ++ rest) = some (s1, rest))
    (h3 : ∀ rest, parseString (l3 ++ rest) = some (s3, rest))
    (h4 : ∀ rest, parseString (l4 ++ rest) = some (s4, rest)) :
    parseJSON (recordText w l1 (Itoa n) l3 l4) =
      some (.object [(goString "patientId", .string s1), (goString "age", .number (Itoa n)),
        (goString "gender", .string s3), (goString "illness", .string s4)]) := by
  obtain ⟨f, hf⟩ : ∃ f, (recordText w l1 (Itoa n) l3 l4).length + 1 = f + 6 :=
    ⟨(recordText w l1 (Itoa n) l3 l4).length - 5, by
      simp only [recordText, List.length_cons, List.length_append]; omega⟩
  have hm4 := parseMembers_string_last f w hw _ plainText_illness l4 s4 h4
  have hm3 := parseMembers_string_more (f + 1) w hw _ plainText_gender l3 s3 h3 _ _ _ hm4
  have hm2 := parseMembers_number_more (f + 2) w hw _ plainText_age n _ _ _ hm3
  have hm1 := parseMembers_string_more (f + 3) w hw _ plainText_patientId l1 s1 h1 _ _ _ hm2
  have hv := parseValue_object (f + 5) _ _ _ hm1
  unfold parseJSON
  rw [hf]
  have hsk : skipSpace (recordText w l1 (Itoa n) l3 l4) = recordText w l1 (Itoa n) l3 l4 :=
    skipSpace_cons_of_not_space _ _ (by decide)
  rw [hsk]
  have hv2 : parseValue (f + 6) 0 (recordText w l1 (Itoa n) l3 l4) = _ := hv
  rw [hv2]
  rfl

/-- Decoding the text of a record gives the record. -/
theorem Unmarshal_recordText (w : Bytes) (hw : ∀ b ∈ w, isSpace b = true)
    (l1 s1 l3 s3 l4 s4 : Bytes) (n : Int) (hmin : minInt ≤ n) (hmax : n ≤ maxInt)
    (h1 : ∀ rest, parseString (l1 ++ rest) = some (s1, rest))
    (h3 : ∀ rest, parseString (l3 ++ rest) = some (s3, rest))
    (h4 : ∀ rest, parseString (l4 ++ rest) = some (s4, rest)) (p : Patient) :
    Unmarshal (recordText w l1 (Itoa n) l3 l4) p = (⟨s1, n, s3, s4⟩, none) := by
  have hf1 : findField (goString "patientId") = some Field.patientId := by decide
  have hf2 : findField (goString "age") = some Field.age := by decide
  have hf3 : findField (goString "gender") = some Field.gender := by decide
  have hf4 : findField (goString "illness") = some Field.illness := by decide
  have hr : ¬ (n < minInt ∨ maxInt < n) := by omega
  simp only [Unmarshal, parseJSON_recordText w hw l1 s1 l3 s3 l4 s4 n h1 h3 h4, decodeMembers,
    hf1, hf2, hf3, hf4, storeField, ParseInt_Itoa n hmin hmax, hr, if_false, Bool.or_false,
    Bool.false_eq_true]

theorem plain_literal (s : Bytes) (hp : plainText s) :
    ∀ rest, parseString ((s ++ [0x22]) ++ rest) = some (s, rest) := by
  intro rest
  rw [List.append_assoc]
  exact parseString_plain s hp rest

theorem escaped_literal (s : Bytes) (hv : utf8Valid s = true) :
    ∀ rest, parseString ((escapeLoop s.length s ++ [0x22]) ++ rest) = some (s, rest) := by
  intro rest
  rw [List.append_assoc]
  exact scanString_escapeLoop s.length s (Nat.le_refl _) hv _ rest (by simp)

/-- The text `create_patient` builds is the text of a record, with one space
after each colon and each comma. -/
theorem patient_json_eq (patientId : Bytes) (age : Int) (gender illness : Bytes) :
    goString "\x7b\"patientId\": \"" ++ patientId ++ goString "\", \"age\": " ++ Itoa age ++
      goString ", \"gender\": \"" ++ gender ++ goString "\", \"illness\": \"" ++ illness ++
      goString "\"\x7d" =
    recordText [0x20] (patientId ++ [0x22]) (Itoa age) (gender ++ [0x22])
      (illness ++ [0x22]) := by
  have e1 : goString "\x7b\"patientId\": \"" =
      0x7B :: 0x22 :: (goString "patientId" ++ [0x22, 0x3A, 0x20, 0x22]) := by decide
  have e2 : goString "\", \"age\": " =
      0x22 :: 0x2C :: 0x20 :: 0x22 :: (goString "age" ++ [0x22, 0x3A, 0x20]) := by decide
  have e3 : goString ", \"gender\": \"" =
      0x2C :: 0x20 :: 0x22 :: (goString "gender" ++ [0x22, 0x3A, 0x20, 0x22]) := by decide
  have e4 : goString "\", \"illness\": \"" =
      0x22 :: 0x2C :: 0x20 :: 0x22 :: (goString "illness" ++ [0x22, 0x3A, 0x20, 0x22]) := by
    decide
  have e5 : goString "\"\x7d" = [0x22, 0x7D] := by decide
  rw [e1, e2, e3, e4, e5]
  simp only [recordText, List.append_assoc, List.cons_append, List.nil_append]

/-- The text `json.Marshal` writes is the text of a record, without white
space. -/
theorem encodePatient_eq (p : Patient) :
    encodePatient p =
      recordText [] (escapeLoop p.PatientId.length p.PatientId ++ [0x22]) (Itoa p.Age)
        (escapeLoop p.Gender.length p.Gender ++ [0x22])
        (escapeLoop p.Illness.length p.Illness ++ [0x22]) := by
  have e1 : goString "\x7b\"patientId\":" =
      0x7B :: 0x22 :: (goString "patientId" ++ [0x22, 0x3A]) := by decide
  have e2 : goString ",\"age\":" = 0x2C :: 0x22 :: (goString "age" ++ [0x22, 0x3A]) := by
    decide
  have e3 : goString ",\"gender\":" = 0x2C :: 0x22 :: (goString "gender" ++ [0x22, 0x3A]) := by
    decide
  have e4 : goString ",\"illness\":" =
      0x2C :: 0x22 :: (goString "illness" ++ [0x22, 0x3A]) := by decide
  have e5 : goString "\x7d" = [0x7D] := by decide
  rw [encodePatient, e1, e2, e3, e4, e5]
  simp only [recordText, appendString, List.append_assoc, List.cons_append, List.nil_append]

/-- Decoding the text `create_patient` builds from plain text. -/
theorem Unmarshal_patient_json (patientId : Bytes) (age : Int) (gender illness : Bytes)
    (hid : plainText patientId) (hg : plainText gender) (hi : plainText illness)
    (hmin : minInt ≤ age) (hmax : age ≤ maxInt) (p : Patient) :
    Unmarshal (goString "\x7b\"patientId\": \"" ++ patientId ++ goString "\", \"age\": " ++
      Itoa age ++ goString ", \"gender\": \"" ++ gender ++ goString "\", \"illness\": \"" ++
      illness ++ goString "\"\x7d") p = (⟨patientId, age, gender, illness⟩, none) := by
  rw [patient_json_eq]
  exact Unmarshal_recordText [0x20] (by decide) _ _ _ _ _ _ age hmin hmax
    (plain_literal _ hid) (plain_literal _ hg) (plain_literal _ hi) p

/-- Decoding what `json.Marshal` wrote gives the record back, when its strings
are well-formed UTF-8 and its age is an `int`. -/
theorem Unmarshal_encodePatient (q : Patient) (hid : utf8Valid q.PatientId = true)
    (hg : utf8Valid q.Gender = true) (hi : utf8Valid q.Illness = true)
    (hmin : minInt ≤ q.Age) (hmax : q.Age ≤ maxInt) (p : Patient) :
    Unmarshal (encodePatient q) p = (q, none) := by
  rw [encodePatient_eq]
  exact Unmarshal_recordText [] (by simp) _ _ _ _ _ _ q.Age hmin hmax
    (escaped_literal _ hid) (escaped_literal _ hg) (escaped_literal _ hi) p

/-! ### Creating a record from plain text -/

/-- What `create_patient` does on plain text: it writes the serialization of the
record under the id, or reports the failure of the write. -/
theorem create_patient_plain (stub : Stub) (patientId : Bytes) (age : Int)
    (gender illness : Bytes) (hne : patientId ≠ [])
    (hid : plainText patientId) (hg : plainText gender) (hi : plainText illness)
    (hmin : minInt ≤ age) (hmax : age ≤ maxInt) :
    create_patient stub patientId age gender illness =
      if stub.putFails stub.calls patientId
          (encodePatient ⟨patientId, age, gender, illness⟩) = true then
        ((none, some (goString "Error saving changes")),
          (stub.PutState patientId (encodePatient ⟨patientId, age, gender, illness⟩)).2)
      else
        ((none, none),
          stub.afterPut patientId (encodePatient ⟨patientId, age, gender, illness⟩)) := by
  simp only [create_patient, hne, if_false,
    Unmarshal_patient_json patientId age gender illness hid hg hi hmin hmax, save_changes,
    Marshal, Stub.PutState, Stub.afterPut]
  cases hp : stub.putFails stub.calls patientId
      (encodePatient ⟨patientId, age, gender, illness⟩) <;> simp

/-- An empty id is rejected by `create_patient`. -/
theorem create_patient_nil_fails (stub : Stub) (age : Int) (gender illness : Bytes) :
    (create_patient stub [] age gender illness).1.2 ≠ none := by
  simp [create_patient]

/-- A successful `create_patient` on plain text. -/
theorem create_patient_plain_ok (stub : Stub) (patientId : Bytes) (age : Int)
    (gender illness : Bytes)
    (hid : plainText patientId) (hg : plainText gender) (hi : plainText illness)
    (hmin : minInt ≤ age) (hmax : age ≤ maxInt)
    (hok : (create_patient stub patientId age gender illness).1.2 = none) :
    create_patient stub patientId age gender illness =
      ((none, none),
        stub.afterPut patientId (encodePatient ⟨patientId, age, gender, illness⟩)) := by
  have hne : patientId ≠ [] := by
    intro h; subst h
    exact create_patient_nil_fails stub age gender illness hok
  have h := create_patient_plain stub patientId age gender illness hne hid hg hi hmin hmax
  by_cases hp : stub.putFails stub.calls patientId
      (encodePatient ⟨patientId, age, gender, illness⟩) = true
  · rw [h, if_pos hp] at hok
    simp at hok
  · rw [h, if_neg hp]

/-- The query of an id whose ledger entry is the serialization of a record with
well-formed strings returns that serialization. -/
theorem Query_of_encoded (stub : Stub) (id : Bytes) (q : Patient)
    (hget : stub.getFails stub.calls id = false)
    (hstate : stub.state id = some (encodePatient q))
    (hid : utf8Valid q.PatientId = true) (hg : utf8Valid q.Gender = true)
    (hi : utf8Valid q.Illness = true) (hmin : minInt ≤ q.Age) (hmax : q.Age ≤ maxInt) :
    Query stub (goString "getPatientRecord") [id] =
      ((some (encodePatient q), none), stub.afterGet id) := by
  rw [Query_getPatientRecord_eq stub id hget, hstate]
  simp only [Option.getD_some, Unmarshal_encodePatient q hid hg hi hmin hmax, Stub.afterGet]

/-! ### Creating and reading back -/

/-- Claim C1, as amended: when the id, the gender and the illness are plain
text and the age is an `int`, and `create_patient` succeeds and the following
read of the id reports no error, the query of the id succeeds, its payload is
the serialization of the record of the four arguments, and `json.Unmarshal`
decodes that payload to exactly these four values. -/
theorem create_then_query (stub : Stub) (patientId : Bytes) (age : Int)
    (gender illness : Bytes)
    (hid : plainText patientId) (hg : plainText gender) (hi : plainText illness)
    (hmin : minInt ≤ age) (hmax : age ≤ maxInt)
    (hok : (create_patient stub patientId age gender illness).1.2 = none)
    (hget : (create_patient stub patientId age gender illness).2.getFails
      (create_patient stub patientId age gender illness).2.calls patientId = false) :
    (Query (create_patient stub patientId age gender illness).2 (goString "getPatientRecord")
        [patientId]).1 =
      (some (encodePatient ⟨patientId, age, gender, illness⟩), none) ∧
    Unmarshal (encodePatient ⟨patientId, age, gender, illness⟩) Patient.zero =
      (⟨patientId, age, gender, illness⟩, none) := by
  have h := create_patient_plain_ok stub patientId age gender illness hid hg hi hmin hmax hok
  rw [h] at hget ⊢
  have hst : (stub.afterPut patientId (encodePatient ⟨patientId, age, gender, illness⟩)).state
      patientId = some (encodePatient ⟨patientId, age, gender, illness⟩) := by
    simp [Stub.afterPut]
  constructor
  · rw [Query_of_encoded _ patientId ⟨patientId, age, gender, illness⟩ hget hst hid.1 hg.1 hi.1
      hmin hmax]
  · exact Unmarshal_encodePatient ⟨patientId, age, gender, illness⟩ hid.1 hg.1 hi.1 hmin hmax _

/-- Claim C1, as amended, on the empty ledger and the record `p1`, 42, `F`,
`flu`. -/
theorem create_then_query_witness :
    (Query (create_patient emptyLedger (goString "p1") 42 (goString "F") (goString "flu")).2
        (goString "getPatientRecord") [goString "p1"]).1 =
      (some (encodePatient ⟨goString "p1", 42, goString "F", goString "flu"⟩), none) ∧
    Unmarshal (encodePatient ⟨goString "p1", 42, goString "F", goString "flu"⟩) Patient.zero =
      (⟨goString "p1", 42, goString "F", goString "flu"⟩, none) :=
  create_then_query emptyLedger (goString "p1") 42 (goString "F") (goString "flu")
    ⟨by decide, by decide⟩ ⟨by decide, by decide⟩ ⟨by decide, by decide⟩
    (by decide) (by decide) (by decide!) (by decide!)

/-- Claim C1 as stated fails.  With the gender `[0xFF]`, which is not
well-formed UTF-8, `create_patient` and the query succeed and the payload
decodes to the gender U+FFFD instead of the gender passed.  With the id `a\\b`
`create_patient` succeeds and the query of that id fails. -/
theorem create_then_query_differs :
    ((create_patient emptyLedger (goString "p1") 42 [0xFF] (goString "flu")).1 = (none, none) ∧
      (Query (create_patient emptyLedger (goString "p1") 42 [0xFF] (goString "flu")).2
          (goString "getPatientRecord") [goString "p1"]).1 =
        (some (encodePatient ⟨goString "p1", 42, [0xEF, 0xBF, 0xBD], goString "flu"⟩), none) ∧
      Unmarshal (encodePatient ⟨goString "p1", 42, [0xEF, 0xBF, 0xBD], goString "flu"⟩)
          Patient.zero =
        (⟨goString "p1", 42, [0xEF, 0xBF, 0xBD], goString "flu"⟩, none)) ∧
    ((create_patient emptyLedger (goString "a\\\\b") 42 (goString "F") (goString "flu")).1 =
        (none, none) ∧
      (Query (create_patient emptyLedger (goString "a\\\\b") 42 (goString "F")
          (goString "flu")).2 (goString "getPatientRecord") [goString "a\\\\b"]).1 =
        (none, some (goString
          "QUERY: Error retrieving Patient GET_PATIENT: Corrupt patient record"))) := by
  decide!

/-! ### The entry points, path by path -/

/-- The paths of `create_patient`: the empty id, the text that does not decode,
the write that fails, and the write of the decoded record under its own
`PatientId`. -/
theorem create_patient_eq (stub : Stub) (patientId : Bytes) (age : Int)
    (gender illness : Bytes) :
    create_patient stub patientId age gender illness =
      if patientId = [] then ((none, some (goString "Invalid Patient ID provided.")), stub)
      else if (Unmarshal (patient_json patientId age gender illness) Patient.zero).2 ≠ none then
        ((none, some (goString "Invalid JSON Object")), stub)
      else if stub.putFails stub.calls
          (Unmarshal (patient_json patientId age gender illness) Patient.zero).1.PatientId
          (encodePatient (Unmarshal (patient_json patientId age gender illness)
            Patient.zero).1) = true then
        ((none, some (goString "Error saving changes")),
          (stub.PutState
            (Unmarshal (patient_json patientId age gender illness) Patient.zero).1.PatientId
            (encodePatient (Unmarshal (patient_json patientId age gender illness)
              Patient.zero).1)).2)
      else
        ((none, none),
          stub.afterPut
            (Unmarshal (patient_json patientId age gender illness) Patient.zero).1.PatientId
            (encodePatient (Unmarshal (patient_json patientId age gender illness)
              Patient.zero).1)) := by
  by_cases hid : patientId = []
  · simp [create_patient, hid]
  · rw [if_neg hid]
    have hj : create_patient stub patientId age gender illness =
        match Unmarshal (patient_json patientId age gender illness) Patient.zero with
        | (_, some _) => ((none, some (goString "Invalid JSON Object")), stub)
        | (p1, none) =>
          match save_changes stub p1 with
          | ((_, some _), stub1) => ((none, some (goString "Error saving changes")), stub1)
          | ((_, none), stub1) => ((none, none), stub1) := by
      simp only [create_patient, hid, if_false, patient_json]
    rw [hj]
    rcases hu : Unmarshal (patient_json patientId age gender illness) Patient.zero with
      ⟨p1, _ | e⟩
    · simp only [ne_eq, not_true_eq_false, if_false, save_changes, Marshal, Stub.PutState,
        Stub.afterPut]
      cases hp : stub.putFails stub.calls p1.PatientId (encodePatient p1) <;> simp
    · simp

/-- The state of the ledger after `create_patient`: it is changed only by a
call that returns no error. -/
theorem create_patient_error_state (stub : Stub) (patientId : Bytes) (age : Int)
    (gender illness : Bytes)
    (herr : (create_patient stub patientId age gender illness).1.2 ≠ none) :
    (create_patient stub patientId age gender illness).2.state = stub.state := by
  rw [create_patient_eq] at herr ⊢
  split_ifs at herr ⊢ with h1 h2 h3
  · rfl
  · rfl
  · simp [Stub.PutState, h3]
  · simp at herr

/-- The payload of `create_patient` is always nil. -/
theorem create_patient_payload (stub : Stub) (patientId : Bytes) (age : Int)
    (gender illness : Bytes) :
    (create_patient stub patientId age gender illness).1.1 = none := by
  rw [create_patient_eq]
  split_ifs <;> rfl

/-- The paths of `Query` on one argument: another function name, the read that
fails, the bytes that do not decode, and the answer. -/
theorem Query_one_eq (stub : Stub) (function a0 : Bytes) :
    Query stub function [a0] =
      if function = goString "getPatientRecord" then
        if stub.getFails stub.calls a0 = true then
          ((none, some (goString "QUERY: Error retrieving Patient " ++
            (goString "GET_PATIENT: Error retrieving patient record with patientId = " ++
              a0))), stub.afterGet a0)
        else if (Unmarshal ((stub.state a0).getD []) Patient.zero).2 ≠ none then
          ((none, some (goString "QUERY: Error retrieving Patient " ++
            (goString "GET_PATIENT: Corrupt patient record" ++ (stub.state a0).getD []))),
            stub.afterGet a0)
        else
          ((some (encodePatient (Unmarshal ((stub.state a0).getD []) Patient.zero).1), none),
            stub.afterGet a0)
      else
        ((none, some (goString "Received unknown function invocation " ++ function)),
          stub) := by
  by_cases hf : function = goString "getPatientRecord"
  · rw [if_pos hf]
    cases hg : stub.getFails stub.calls a0
    · rw [hf, Query_getPatientRecord_eq stub a0 hg]
      rcases hu : Unmarshal ((stub.state a0).getD []) Patient.zero with ⟨p1, _ | e⟩ <;> simp
    · simp [Query, hf, getPatient, Stub.GetState, hg, Stub.afterGet]
  · simp [Query, hf]

/-- Claim C11: on one argument, a function name other than `getPatientRecord`
makes `Query` return the unknown-function error (`Received unknown function
invocation ` followed by the name) with a nil payload; the ledger is as before
and no read is made, whatever it holds under the argument. -/
theorem Query_unknown_function (stub : Stub) (function a0 : Bytes)
    (hf : function ≠ goString "getPatientRecord") :
    Query stub function [a0] =
      ((none, some (goString "Received unknown function invocation " ++ function)),
        stub) := by
  rw [Query_one_eq, if_neg hf]

/-- Claim C11 at the function name `getPatient`. -/
theorem Query_unknown_function_witness :
    Query (ledgerWith (goString "p1") (goString "null")) (goString "getPatient")
        [goString "p1"] =
      ((none, some (goString "Received unknown function invocation " ++
        goString "getPatient")), ledgerWith (goString "p1") (goString "null")) :=
  Query_unknown_function _ (goString "getPatient") (goString "p1") (by decide)

/-- Claim C13 fails on the code: with the id `p"1`, which is a non-empty string,
`create_patient` returns the serialization error `Invalid JSON Object`; so it
does with a line feed in the gender. -/
theorem create_patient_invalid_json :
    (create_patient emptyLedger (goString "p\"1") 42 (goString "F") (goString "flu")).1 =
      (none, some (goString "Invalid JSON Object")) ∧
    (create_patient emptyLedger (goString "p1") 42 (goString "F\nM") (goString "flu")).1 =
      (none, some (goString "Invalid JSON Object")) := by
  decide!

/-- Claim C15: `Query` is read-only.  Whatever the function name and the
arguments, and whether it succeeds or fails, the key/value state after the call
is the state before it; the ledger is either untouched or differs by the one
recorded read, and no write is recorded. -/
theorem Query_read_only (stub : Stub) (function : Bytes) (args : List Bytes) :
    (Query stub function args).2.state = stub.state ∧
    ((Query stub function args).2 = stub ∨
      ∃ id, (Query stub function args).2 = stub.afterGet id) := by
  rcases args with _ | ⟨a0, _ | ⟨a1, rest⟩⟩
  · exact ⟨rfl, Or.inl rfl⟩
  · rw [Query_one_eq]
    split_ifs
    · exact ⟨rfl, Or.inr ⟨a0, rfl⟩⟩
    · exact ⟨rfl, Or.inr ⟨a0, rfl⟩⟩
    · exact ⟨rfl, Or.inr ⟨a0, rfl⟩⟩
    · exact ⟨rfl, Or.inl rfl⟩
  · exact ⟨rfl, Or.inl rfl⟩

/-- Claim C16: for each of `Init`, `Invoke` and `Query`, whatever the ledger,
the function name and the arguments, a call that returns an error returns a nil
payload. -/
theorem error_payload_nil (stub : Stub) (function : Bytes) (args : List Bytes) :
    ((Init stub function args).1.2 ≠ none → (Init stub function args).1.1 = none) ∧
    ((Invoke stub function args).1.2 ≠ none → (Invoke stub function args).1.1 = none) ∧
    ((Query stub function args).1.2 ≠ none → (Query stub function args).1.1 = none) := by
  refine ⟨fun _ => rfl, fun _ => ?_, ?_⟩
  · rcases args with _ | ⟨a0, _ | ⟨a1, _ | ⟨a2, _ | ⟨a3, _ | ⟨a4, rest⟩⟩⟩⟩⟩
    · rfl
    · rfl
    · rfl
    · rfl
    · simp only [Invoke]
      cases Atoi a1 with
      | none => rfl
      | some age =>
        simp only
        split_ifs
        · exact create_patient_payload stub a0 age a2 a3
        · rfl
    · rfl
  · rcases args with _ | ⟨a0, _ | ⟨a1, rest⟩⟩
    · intro _; rfl
    · rw [Query_one_eq]
      split_ifs
      · intro _; rfl
      · intro _; rfl
      · intro h; exact absurd rfl h
      · intro _; rfl
    · intro _; rfl

/-- Claim C16 on calls that fail: `Invoke` with no argument, and `Query` of an
id that holds nothing. -/
theorem error_payload_nil_witness :
    (Invoke emptyLedger (goString "create_patient") []).1.1 = none ∧
    (Query emptyLedger (goString "getPatientRecord") [goString "p1"]).1.1 = none :=
  ⟨(error_payload_nil emptyLedger (goString "create_patient") []).2.1 (by decide),
    (error_payload_nil emptyLedger (goString "getPatientRecord") [goString "p1"]).2.2
      (by decide!)⟩

/-- Claim C17: `Init` returns a nil payload and no error and leaves the ledger
as it is, state and recorded calls alike, whatever the function name and the
arguments. -/
theorem Init_noop (stub : Stub) (function : Bytes) (args : List Bytes) :
    Init stub function args = ((none, none), stub) := rfl

/-- Claim C19: when `Invoke` returns an error, the key/value state after the
call is the state before it (a write that reports failure leaves the state as
it is); the state changes only on a call that returns no error. -/
theorem Invoke_error_keeps_state (stub : Stub) (function : Bytes) (args : List Bytes)
    (herr : (Invoke stub function args).1.2 ≠ none) :
    (Invoke stub function args).2.state = stub.state := by
  rcases args with _ | ⟨a0, _ | ⟨a1, _ | ⟨a2, _ | ⟨a3, _ | ⟨a4, rest⟩⟩⟩⟩⟩
  · rfl
  · rfl
  · rfl
  · rfl
  · simp only [Invoke] at herr ⊢
    cases ha : Atoi a1 with
    | none => rfl
    | some age =>
      rw [ha] at herr
      simp only at herr ⊢
      by_cases hf : function = goString "create_patient"
      · rw [if_pos hf] at herr ⊢
        exact create_patient_error_state stub a0 age a2 a3 herr
      · rw [if_neg hf]
  · rfl

/-- Claim C19 on a write that fails: the ledger whose writes always fail keeps
its state over `create_patient` through `Invoke`. -/
theorem Invoke_error_keeps_state_witness :
    (Invoke (⟨fun _ => none, [], fun _ _ => false, fun _ _ _ => true⟩ : Stub)
        (goString "create_patient")
        [goString "p1", goString "42", goString "F", goString "flu"]).1.2 ≠ none ∧
    (Invoke (⟨fun _ => none, [], fun _ _ => false, fun _ _ _ => true⟩ : Stub)
        (goString "create_patient")
        [goString "p1", goString "42", goString "F", goString "flu"]).2.state =
      (⟨fun _ => none, [], fun _ _ => false, fun _ _ _ => true⟩ : Stub).state :=
  ⟨by decide!, Invoke_error_keeps_state _ _ _ (by decide!)⟩

/-! ### The canonical encoding -/

/-- `appendString` copies text that needs no escaping. -/
theorem escapeLoop_verbatim : ∀ (fuel : Nat) (s : Bytes), s.length ≤ fuel →
    validLoop fuel s = true →
    (∀ b ∈ s, (0x20 ≤ b.toNat ∧ b ≠ 0x22 ∧ b ≠ 0x5C) ∧ b ≠ 0x3C ∧ b ≠ 0x3E ∧ b ≠ 0x26) →
    ¬ List.IsInfix [0xE2, 0x80, 0xA8] s → ¬ List.IsInfix [0xE2, 0x80, 0xA9] s →
    escapeLoop fuel s = s := by
  intro fuel
  induction fuel with
  | zero =>
    intro s hlen _ _ _ _
    have hs : s = [] := List.length_eq_zero.mp (Nat.le_zero.mp hlen)
    subst hs
    rfl
  | succ fuel ih =>
    intro s hlen hvalid hb h8 h9
    cases s with
    | nil => rfl
    | cons c r =>
      rw [validLoop_cons] at hvalid
      obtain ⟨hok, hrest⟩ := hvalid
      simp only [List.length_cons] at hlen
      obtain ⟨⟨h20, h22, h5c⟩, h3c, h3e, h26⟩ := hb c (List.mem_cons_self c r)
      by_cases h80 : c.toNat < 0x80
      · rw [DecodeRune_ascii c r h80] at hrest
        have hsafe : htmlSafe c = true := by
          simp [htmlSafe, h20, h80, h22, h5c, h3c, h3e, h26]
        have hr := ih r (by omega) hrest (fun b hb1 => hb b (List.mem_cons_of_mem c hb1))
          (fun hi => h8 (List.IsInfix.trans hi (List.suffix_cons c r).isInfix))
          (fun hi => h9 (List.IsInfix.trans hi (List.suffix_cons c r).isInfix))
        simp only [escapeLoop, h80, if_true, hsafe, hr, List.singleton_append]
      · obtain ⟨hk2, hklen, henc, _, _⟩ := DecodeRune_multibyte c r (by omega) hok
        have hl : ((c :: r).drop (DecodeRune (c :: r)).2).length ≤ fuel := by
          simp only [List.length_drop, List.length_cons]; omega
        have hsuf : ((c :: r).drop (DecodeRune (c :: r)).2) <:+ (c :: r) :=
          List.drop_suffix _ _
        have hr := ih _ hl hrest (fun b hb1 => hb b (List.mem_of_mem_drop hb1))
          (fun hi => h8 (List.IsInfix.trans hi hsuf.isInfix))
          (fun hi => h9 (List.IsInfix.trans hi hsuf.isInfix))
        have hpre : (c :: r).take (DecodeRune (c :: r)).2 <+: (c :: r) := List.take_prefix _ _
        have hsep : ¬ ((DecodeRune (c :: r)).1 = 0x2028 ∨ (DecodeRune (c :: r)).1 = 0x2029) := by
          rintro (h | h)
          · rw [h] at henc
            have he : EncodeRune 0x2028 = [0xE2, 0x80, 0xA8] := by decide
            rw [he] at henc
            rw [← henc] at hpre
            exact h8 hpre.isInfix
          · rw [h] at henc
            have he : EncodeRune 0x2029 = [0xE2, 0x80, 0xA9] := by decide
            rw [he] at henc
            rw [← henc] at hpre
            exact h9 hpre.isInfix
        simp only [escapeLoop, h80, if_false, hok, hsep, hr, List.take_append_drop]

/-- The serialization of a record whose strings need no escaping. -/
theorem encodePatient_verbatim (patientId : Bytes) (age : Int) (gender illness : Bytes)
    (hid : verbatimText patientId) (hg : verbatimText gender) (hi : verbatimText illness) :
    encodePatient ⟨patientId, age, gender, illness⟩ =
      canonicalText patientId age gender illness := by
  have e : ∀ s : Bytes, verbatimText s → appendString s = 0x22 :: (s ++ [0x22]) := by
    intro s hs
    obtain ⟨hp, hh, h8, h9⟩ := hs
    have := escapeLoop_verbatim s.length s (Nat.le_refl _) hp.1
      (fun b hb => ⟨hp.2 b hb, hh b hb⟩) h8 h9
    rw [appendString, this]
    rfl
  have e1 : goString "\x7b\"patientId\":\"" = goString "\x7b\"patientId\":" ++ [0x22] := by
    decide
  have e2 : goString "\",\"age\":" = 0x22 :: goString ",\"age\":" := by decide
  have e3 : goString ",\"gender\":\"" = goString ",\"gender\":" ++ [0x22] := by decide
  have e4 : goString "\",\"illness\":\"" = 0x22 :: (goString ",\"illness\":" ++ [0x22]) := by
    decide
  have e5 : goString "\"\x7d" = 0x22 :: goString "\x7d" := by decide
  rw [encodePatient, canonicalText, e _ hid, e _ hg, e _ hi, e1, e2, e3, e4, e5]
  simp only [List.append_assoc, List.cons_append, List.nil_append]

/-- Claim C12, as amended: when the id, the gender and the illness are text
that needs no escaping in JSON and holds none of `<`, `>`, `&`, U+2028 and
U+2029, the age is an `int`, `create_patient` succeeds and the following read of
the id reports no error, the query of the id returns exactly the bytes of the
record with the field names `patientId`, `age`, `gender`, `illness` in this
order and no white space. -/
theorem create_then_query_canonical (stub : Stub) (patientId : Bytes) (age : Int)
    (gender illness : Bytes)
    (hid : verbatimText patientId) (hg : verbatimText gender) (hi : verbatimText illness)
    (hmin : minInt ≤ age) (hmax : age ≤ maxInt)
    (hok : (create_patient stub patientId age gender illness).1.2 = none)
    (hget : (create_patient stub patientId age gender illness).2.getFails
      (create_patient stub patientId age gender illness).2.calls patientId = false) :
    (Query (create_patient stub patientId age gender illness).2 (goString "getPatientRecord")
        [patientId]).1 =
      (some (canonicalText patientId age gender illness), none) := by
  have h := create_patient_plain_ok stub patientId age gender illness hid.1 hg.1 hi.1 hmin hmax
    hok
  rw [h] at hget ⊢
  have hst : (stub.afterPut patientId (encodePatient ⟨patientId, age, gender, illness⟩)).state
      patientId = some (encodePatient ⟨patientId, age, gender, illness⟩) := by
    simp [Stub.afterPut]
  rw [Query_of_encoded _ patientId ⟨patientId, age, gender, illness⟩ hget hst hid.1.1 hg.1.1
    hi.1.1 hmin hmax, encodePatient_verbatim patientId age gender illness hid hg hi]

/-- Claim C12, as amended, on the example of the specification: `p1`, 42, `F`,
`flu`. -/
theorem create_then_query_canonical_witness :
    (Query (create_patient emptyLedger (goString "p1") 42 (goString "F") (goString "flu")).2
        (goString "getPatientRecord") [goString "p1"]).1 =
      (some (goString
        "\x7b\"patientId\":\"p1\",\"age\":42,\"gender\":\"F\",\"illness\":\"flu\"\x7d"),
        none) :=
  create_then_query_canonical emptyLedger (goString "p1") 42 (goString "F") (goString "flu")
    ⟨⟨by decide, by decide⟩, by decide, by decide, by decide⟩
    ⟨⟨by decide, by decide⟩, by decide, by decide, by decide⟩
    ⟨⟨by decide, by decide⟩, by decide, by decide, by decide⟩
    (by decide) (by decide) (by decide!) (by decide!)

/-- Claim C12 as stated fails: the gender `A&B` needs no escaping in JSON, and
after a successful `create_patient` the query returns it as `A&B`, so the
payload is not the bytes of the claim. -/
theorem create_then_query_escapes_html :
    (create_patient emptyLedger (goString "p1") 42 (goString "A&B") (goString "flu")).1 =
      (none, none) ∧
    (Query (create_patient emptyLedger (goString "p1") 42 (goString "A&B") (goString "flu")).2
        (goString "getPatientRecord") [goString "p1"]).1 =
      (some (goString
        "\x7b\"patientId\":\"p1\",\"age\":42,\"gender\":\"A\\u0026B\",\"illness\":\"flu\"\x7d"),
        none) ∧
    (Query (create_patient emptyLedger (goString "p1") 42 (goString "A&B") (goString "flu")).2
        (goString "getPatientRecord") [goString "p1"]).1 ≠
      (some (canonicalText (goString "p1") 42 (goString "A&B") (goString "flu")), none) := by
  decide!

/-! ### Well-formed UTF-8 out of the decoder -/

theorem DecodeRune_two_eq (b0 b1 : UInt8) (t : Bytes)
    (h0 : 0xC2 ≤ b0.toNat ∧ b0.toNat ≤ 0xDF) (h1 : 0x80 ≤ b1.toNat ∧ b1.toNat ≤ 0xBF) :
    DecodeRune (b0 :: b1 :: t) = ((b0.toNat % 32) * 64 + b1.toNat % 64, 2) := by
  have hlt : ¬ b0.toNat < 0x80 := by omega
  have hr : inRange b1 0x80 0xBF = true := (inRange_iff _ _ _).2 h1
  simp only [DecodeRune, hlt, h0, hr, if_false, if_true, and_self]

theorem DecodeRune_three_eq (b0 b1 b2 : UInt8) (t : Bytes)
    (h0 : 0xE0 ≤ b0.toNat ∧ b0.toNat ≤ 0xEF)
    (h1 : (if b0.toNat = 0xE0 then 0xA0 else 0x80) ≤ b1.toNat ∧
      b1.toNat ≤ (if b0.toNat = 0xED then 0x9F else 0xBF))
    (h2 : 0x80 ≤ b2.toNat ∧ b2.toNat ≤ 0xBF) :
    DecodeRune (b0 :: b1 :: b2 :: t) =
      (((b0.toNat % 16) * 64 + b1.toNat % 64) * 64 + b2.toNat % 64, 3) := by
  have hlt : ¬ b0.toNat < 0x80 := by omega
  have hn2 : ¬ (0xC2 ≤ b0.toNat ∧ b0.toNat ≤ 0xDF) := by omega
  have hr : (inRange b1 (if b0.toNat = 0xE0 then 0xA0 else 0x80)
      (if b0.toNat = 0xED then 0x9F else 0xBF) && inRange b2 0x80 0xBF) = true := by
    rw [Bool.and_eq_true, inRange_iff, inRange_iff]
    exact ⟨h1, h2⟩
  simp only [DecodeRune, hlt, hn2, h0, hr, if_false, if_true, and_self]

theorem DecodeRune_four_eq (b0 b1 b2 b3 : UInt8) (t : Bytes)
    (h0 : 0xF0 ≤ b0.toNat ∧ b0.toNat ≤ 0xF4)
    (h1 : (if b0.toNat = 0xF0 then 0x90 else 0x80) ≤ b1.toNat ∧
      b1.toNat ≤ (if b0.toNat = 0xF4 then 0x8F else 0xBF))
    (h2 : 0x80 ≤ b2.toNat ∧ b2.toNat ≤ 0xBF) (h3 : 0x80 ≤ b3.toNat ∧ b3.toNat ≤ 0xBF) :
    DecodeRune (b0 :: b1 :: b2 :: b3 :: t) =
      ((((b0.toNat % 8) * 64 + b1.toNat % 64) * 64 + b2.toNat % 64) * 64 + b3.toNat % 64,
        4) := by
  have hlt : ¬ b0.toNat < 0x80 := by omega
  have hn2 : ¬ (0xC2 ≤ b0.toNat ∧ b0.toNat ≤ 0xDF) := by omega
  have hn3 : ¬ (0xE0 ≤ b0.toNat ∧ b0.toNat ≤ 0xEF) := by omega
  have hr : (inRange b1 (if b0.toNat = 0xF0 then 0x90 else 0x80)
      (if b0.toNat = 0xF4 then 0x8F else 0xBF) && inRange b2 0x80 0xBF &&
      inRange b3 0x80 0xBF) = true := by
    rw [Bool.and_eq_true, Bool.and_eq_true, inRange_iff, inRange_iff, inRange_iff]
    exact ⟨⟨h1, h2⟩, h3⟩
  simp only [DecodeRune, hlt, hn2, hn3, h0, hr, if_false, if_true, and_self]

/-- What `EncodeRune` writes decodes as one rune of that width, without
error. -/
theorem DecodeRune_EncodeRune (r : Nat) (t : Bytes) :
    (DecodeRune (EncodeRune r ++ t)).2 = (EncodeRune r).length ∧
    ¬ ((DecodeRune (EncodeRune r ++ t)).1 = runeError ∧ (EncodeRune r).length = 1) := by
  unfold EncodeRune
  by_cases h1 : r ≤ 0x7F
  · rw [if_pos h1]
    have hb : (UInt8.ofNat r).toNat = r := toNat_ofNat_lt r (by omega)
    rw [List.singleton_append, DecodeRune_ascii _ _ (by rw [hb]; omega), hb]
    refine ⟨rfl, ?_⟩
    rintro ⟨h, _⟩
    simp only [runeError] at h
    omega
  · rw [if_neg h1]
    by_cases h2 : r ≤ 0x7FF
    · rw [if_pos h2]
      have hb0 : (UInt8.ofNat (0xC0 + r / 64)).toNat = 0xC0 + r / 64 :=
        toNat_ofNat_lt _ (by omega)
      have hb1 : (UInt8.ofNat (0x80 + r % 64)).toNat = 0x80 + r % 64 :=
        toNat_ofNat_lt _ (by omega)
      have := DecodeRune_two_eq (UInt8.ofNat (0xC0 + r / 64)) (UInt8.ofNat (0x80 + r % 64)) t
        (by rw [hb0]; omega) (by rw [hb1]; omega)
      rw [show ∀ (a b : UInt8), [a, b] ++ t = a :: b :: t from fun _ _ => rfl, this]
      exact ⟨rfl, fun h => by simp at h⟩
    · rw [if_neg h2]
      by_cases h3 : r > 0x10FFFF ∨ (0xD800 ≤ r ∧ r ≤ 0xDFFF)
      · rw [if_pos h3]
        have : DecodeRune ([0xEF, 0xBF, 0xBD] ++ t) = (0xFFFD, 3) := rfl
        rw [this]
        exact ⟨rfl, by simp⟩
      · rw [if_neg h3]
        by_cases h4 : r ≤ 0xFFFF
        · rw [if_pos h4]
          have hb0 : (UInt8.ofNat (0xE0 + r / 4096)).toNat = 0xE0 + r / 4096 :=
            toNat_ofNat_lt _ (by omega)
          have hb1 : (UInt8.ofNat (0x80 + r / 64 % 64)).toNat = 0x80 + r / 64 % 64 :=
            toNat_ofNat_lt _ (by omega)
          have hb2 : (UInt8.ofNat (0x80 + r % 64)).toNat = 0x80 + r % 64 :=
            toNat_ofNat_lt _ (by omega)
          have := DecodeRune_three_eq (UInt8.ofNat (0xE0 + r / 4096))
            (UInt8.ofNat (0x80 + r / 64 % 64)) (UInt8.ofNat (0x80 + r % 64)) t
            (by rw [hb0]; omega) (by rw [hb0, hb1]; split_ifs <;> omega) (by rw [hb2]; omega)
          rw [show ∀ (a b c : UInt8), [a, b, c] ++ t = a :: b :: c :: t from fun _ _ _ => rfl,
            this]
          exact ⟨rfl, fun h => by simp at h⟩
        · rw [if_neg h4]
          have hb0 : (UInt8.ofNat (0xF0 + r / 262144)).toNat = 0xF0 + r / 262144 :=
            toNat_ofNat_lt _ (by omega)
          have hb1 : (UInt8.ofNat (0x80 + r / 4096 % 64)).toNat = 0x80 + r / 4096 % 64 :=
            toNat_ofNat_lt _ (by omega)
          have hb2 : (UInt8.ofNat (0x80 + r / 64 % 64)).toNat = 0x80 + r / 64 % 64 :=
            toNat_ofNat_lt _ (by omega)
          have hb3 : (UInt8.ofNat (0x80 + r % 64)).toNat = 0x80 + r % 64 :=
            toNat_ofNat_lt _ (by omega)
          have := DecodeRune_four_eq (UInt8.ofNat (0xF0 + r / 262144))
            (UInt8.ofNat (0x80 + r / 4096 % 64)) (UInt8.ofNat (0x80 + r / 64 % 64))
            (UInt8.ofNat (0x80 + r % 64)) t
            (by rw [hb0]; omega) (by rw [hb0, hb1]; split_ifs <;> omega) (by rw [hb2]; omega)
            (by rw [hb3]; omega)
          rw [show ∀ (a b c d : UInt8), [a, b, c, d] ++ t = a :: b :: c :: d :: t from
            fun _ _ _ _ => rfl, this]
          exact ⟨rfl, fun h => by simp at h⟩

theorem EncodeRune_ne_nil (r : Nat) : EncodeRune r ≠ [] := by
  unfold EncodeRune
  split_ifs <;> simp
theorem DecodeRune_width_pos (c : UInt8) (r : Bytes) : 1 ≤ (DecodeRune (c :: r)).2 := by
  by_cases hbad : (DecodeRune (c :: r)).1 = runeError ∧ (DecodeRune (c :: r)).2 = 1
  · omega
  · by_cases h80 : c.toNat < 0x80
    · rw [DecodeRune_ascii c r h80]
    · have := (DecodeRune_multibyte c r (by omega) hbad).1
      omega

/-- The loop of `utf8.Valid` does not depend on the fuel once it covers the
input. -/
theorem validLoop_fuel : ∀ (f1 f2 : Nat) (s : Bytes), s.length ≤ f1 → s.length ≤ f2 →
    validLoop f1 s = validLoop f2 s := by
  intro f1
  induction f1 with
  | zero =>
    intro f2 s h1 _
    have hs : s = [] := List.length_eq_zero.mp (Nat.le_zero.mp h1)
    subst hs
    cases f2 <;> rfl
  | succ f1 ih =>
    intro f2 s h1 h2
    cases s with
    | nil => cases f2 <;> rfl
    | cons c r =>
      obtain ⟨g, rfl⟩ : ∃ g, f2 = g + 1 := ⟨f2 - 1, by simp at h2; omega⟩
      have hw := DecodeRune_width_pos c r
      simp only [List.length_cons] at h1 h2
      have hl : ((c :: r).drop (DecodeRune (c :: r)).2).length ≤ r.length := by
        simp only [List.length_drop, List.length_cons]; omega
      simp only [validLoop]
      rw [ih g _ (by omega) (by omega)]

/-- A rune in front of well-formed UTF-8 is well-formed UTF-8. -/
theorem utf8Valid_append_rune (a b : Bytes) (ha : a ≠ [])
    (hd : (DecodeRune (a ++ b)).2 = a.length ∧
      ¬ ((DecodeRune (a ++ b)).1 = runeError ∧ a.length = 1))
    (hb : utf8Valid b = true) : utf8Valid (a ++ b) = true := by
  cases a with
  | nil => exact absurd rfl ha
  | cons c a1 =>
    unfold utf8Valid at hb ⊢
    have hlen : ((c :: a1) ++ b).length = (a1.length + b.length) + 1 := by
      simp only [List.length_append, List.length_cons]; omega
    rw [hlen, List.cons_append, validLoop_cons]
    rw [List.cons_append] at hd
    refine ⟨?_, ?_⟩
    · rintro ⟨h1, h2⟩
      exact hd.2 ⟨h1, by rw [← hd.1]; exact h2⟩
    · rw [hd.1, ← List.cons_append, List.drop_left]
      rw [validLoop_fuel _ b.length b (by omega) (Nat.le_refl _)]
      exact hb

theorem utf8Valid_EncodeRune_append (r : Nat) (b : Bytes) (hb : utf8Valid b = true) :
    utf8Valid (EncodeRune r ++ b) = true :=
  utf8Valid_append_rune _ b (EncodeRune_ne_nil r) (DecodeRune_EncodeRune r b) hb

theorem utf8Valid_ascii_append (c : UInt8) (hc : c.toNat < 0x80) (b : Bytes)
    (hb : utf8Valid b = true) : utf8Valid ([c] ++ b) = true := by
  refine utf8Valid_append_rune [c] b (by simp) ?_ hb
  rw [List.singleton_append, DecodeRune_ascii c b hc]
  refine ⟨rfl, ?_⟩
  rintro ⟨h, _⟩
  simp only [runeError] at h
  omega

theorem emit_eq_some (x : Bytes) (k : Option (Bytes × Bytes)) (out rest : Bytes)
    (h : emit x k = some (out, rest)) : ∃ o, k = some (o, rest) ∧ out = x ++ o := by
  cases k with
  | none => simp [emit] at h
  | some p =>
    obtain ⟨o, r⟩ := p
    simp only [emit, Option.some.injEq, Prod.mk.injEq] at h
    exact ⟨o, by rw [h.2], h.1.symm⟩

theorem simpleEscape_ascii (e b : UInt8) (h : simpleEscape e = some b) : b.toNat < 0x80 := by
  unfold simpleEscape at h
  split_ifs at h <;> (injection h with h; subst h; decide)

/-- The text the scanner returns for a string literal is well-formed UTF-8. -/
theorem scanString_valid : ∀ (fuel : Nat) (s out rest : Bytes),
    scanString fuel s = some (out, rest) → utf8Valid out = true := by
  intro fuel
  induction fuel with
  | zero => intro s out rest h; simp [scanString] at h
  | succ fuel ih =>
    intro s out rest h
    have step : ∀ (x : Bytes) (k : Bytes),
        emit x (scanString fuel k) = some (out, rest) →
        (∀ b, utf8Valid b = true → utf8Valid (x ++ b) = true) → utf8Valid out = true := by
      intro x k hk hx
      obtain ⟨o, ho, rfl⟩ := emit_eq_some _ _ _ _ hk
      exact hx o (ih _ _ _ ho)
    cases s with
    | nil => simp [scanString] at h
    | cons c r =>
      simp only [scanString] at h
      split_ifs at h with h22 h5c h20 h80
      · injection h with h
        injection h with h1 _
        subst h1
        rfl
      · cases r with
        | nil => simp at h
        | cons e r1 =>
          simp only at h
          split_ifs at h with hu
          · split at h
            · cases h
            · split_ifs at h
              · split at h
                · split_ifs at h
                  · exact step _ _ h (utf8Valid_EncodeRune_append _)
                  · exact step _ _ h (utf8Valid_EncodeRune_append _)
                · exact step _ _ h (utf8Valid_EncodeRune_append _)
              · exact step _ _ h (utf8Valid_EncodeRune_append _)
          · split at h
            · cases h
            · rename_i b hb
              exact step _ _ h (utf8Valid_ascii_append b (simpleEscape_ascii e b hb))
      · exact step _ _ h (utf8Valid_ascii_append c h80)
      · exact step _ _ h (utf8Valid_EncodeRune_append _)

theorem parseString_valid (s out rest : Bytes) (h : parseString s = some (out, rest)) :
    utf8Valid out = true :=
  scanString_valid _ s out rest h

/-! ### Records out of the decoder -/

/-- A string value out of the parser holds well-formed UTF-8. -/
theorem parseValue_stringValid (fuel depth : Nat) (s : Bytes) (v : JValue) (rest : Bytes)
    (h : parseValue fuel depth s = some (v, rest)) : v.stringValid := by
  cases fuel with
  | zero => simp [parseValue] at h
  | succ fuel =>
    cases s with
    | nil => simp [parseValue] at h
    | cons c r =>
      simp only [parseValue] at h
      split_ifs at h
      all_goals (repeat' split at h)
      all_goals
        cases h <;> first
          | trivial
          | exact parseString_valid _ _ _ (by assumption)
/-- The string values of the members the parser returns hold well-formed
UTF-8. -/
theorem parseMembers_stringValid : ∀ (fuel depth : Nat) (s : Bytes)
    (ms : List (Bytes × JValue)) (rest : Bytes),
    parseMembers fuel depth s = some (ms, rest) → ∀ kv ∈ ms, kv.2.stringValid := by
  intro fuel
  induction fuel with
  | zero => intro depth s ms rest h; simp [parseMembers] at h
  | succ fuel ih =>
    intro depth s ms rest h
    cases s with
    | nil => simp [parseMembers] at h
    | cons q r =>
      simp only [parseMembers] at h
      split_ifs at h
      all_goals (repeat' split at h)
      all_goals
        cases h <;> first
          | (intro kv hkv
             rcases List.mem_cons.1 hkv with hk | hk
             · rw [hk]
               exact parseValue_stringValid _ _ _ _ _ (by assumption)
             · exact ih _ _ _ _ (by assumption) kv hk)
          | (intro kv hkv
             rcases List.mem_singleton.1 hkv with hk
             rw [hk]
             exact parseValue_stringValid _ _ _ _ _ (by assumption))

/-- The string values of the members of an object out of the parser hold
well-formed UTF-8. -/
theorem parseValue_object_stringValid (fuel depth : Nat) (s : Bytes)
    (ms : List (Bytes × JValue)) (rest : Bytes)
    (h : parseValue fuel depth s = some (.object ms, rest)) :
    ∀ kv ∈ ms, kv.2.stringValid := by
  cases fuel with
  | zero => simp [parseValue] at h
  | succ fuel =>
    cases s with
    | nil => simp [parseValue] at h
    | cons c r =>
      simp only [parseValue] at h
      split_ifs at h
      all_goals (repeat' split at h)
      all_goals
        cases h <;> first
          | exact parseMembers_stringValid _ _ _ _ _ (by assumption)
          | (intro kv hkv; exact absurd hkv (List.not_mem_nil _))

theorem parseJSON_object_stringValid (data : Bytes) (ms : List (Bytes × JValue))
    (h : parseJSON data = some (.object ms)) : ∀ kv ∈ ms, kv.2.stringValid := by
  unfold parseJSON at h
  split at h
  · cases h
  · split_ifs at h
    injection h with h
    subst h
    exact parseValue_object_stringValid _ _ _ _ _ (by assumption)

/-- Storing a value into a field keeps the record well-formed. -/
theorem storeField_wellFormed (p : Patient) (f : Field) (v : JValue) (hp : p.wellFormed)
    (hv : v.stringValid) : (storeField p f v).1.wellFormed := by
  obtain ⟨h1, h2, h3, h4, h5⟩ := hp
  cases v with
  | null => exact ⟨h1, h2, h3, h4, h5⟩
  | bool b => exact ⟨h1, h2, h3, h4, h5⟩
  | array xs => exact ⟨h1, h2, h3, h4, h5⟩
  | object ms => exact ⟨h1, h2, h3, h4, h5⟩
  | string s =>
    have hs : utf8Valid s = true := hv
    cases f
    · exact ⟨hs, h2, h3, h4, h5⟩
    · exact ⟨h1, h2, h3, h4, h5⟩
    · exact ⟨h1, hs, h3, h4, h5⟩
    · exact ⟨h1, h2, hs, h4, h5⟩
  | number lit =>
    cases f
    · exact ⟨h1, h2, h3, h4, h5⟩
    · simp only [storeField]
      cases hn : ParseInt lit 64 with
      | none => exact ⟨h1, h2, h3, h4, h5⟩
      | some n =>
        simp only
        split_ifs with hr
        · exact ⟨h1, h2, h3, h4, h5⟩
        · exact ⟨h1, h2, h3, by simp only; omega, by simp only; omega⟩
    · exact ⟨h1, h2, h3, h4, h5⟩
    · exact ⟨h1, h2, h3, h4, h5⟩

theorem decodeMembers_wellFormed : ∀ (ms : List (Bytes × JValue)) (p : Patient),
    p.wellFormed → (∀ kv ∈ ms, kv.2.stringValid) → (decodeMembers p ms).1.wellFormed := by
  intro ms
  induction ms with
  | nil => intro p hp _; exact hp
  | cons kv ms ih =>
    intro p hp hv
    obtain ⟨key, v⟩ := kv
    have hrest : ∀ kv ∈ ms, kv.2.stringValid := fun x hx => hv x (List.mem_cons_of_mem _ hx)
    simp only [decodeMembers]
    cases findField key with
    | none => exact ih p hp hrest
    | some f =>
      exact ih _ (storeField_wellFormed p f v hp (hv (key, v) (List.mem_cons_self _ _))) hrest

/-- The record `json.Unmarshal` leaves is well-formed when the record it was
given is. -/
theorem Unmarshal_wellFormed (data : Bytes) (p : Patient) (hp : p.wellFormed) :
    (Unmarshal data p).1.wellFormed := by
  unfold Unmarshal
  cases hj : parseJSON data with
  | none => exact hp
  | some v =>
    cases v with
    | object ms =>
      exact decodeMembers_wellFormed ms p hp (parseJSON_object_stringValid data ms hj)
    | null => exact hp
    | bool b => exact hp
    | number lit => exact hp
    | string s => exact hp
    | array xs => exact hp

theorem zero_wellFormed : Patient.zero.wellFormed :=
  ⟨by decide, by decide, by decide, by decide, by decide⟩

/-- A record that `json.Unmarshal` decoded is read back unchanged from its own
serialization. -/
theorem Unmarshal_encode_decoded (data : Bytes) (p q : Patient)
    (h : Unmarshal data Patient.zero = (p, none)) :
    Unmarshal (encodePatient p) q = (p, none) := by
  have hw := Unmarshal_wellFormed data Patient.zero zero_wellFormed
  rw [h] at hw
  obtain ⟨h1, h2, h3, h4, h5⟩ := hw
  exact Unmarshal_encodePatient p h1 h2 h3 h4 h5 q

/-! ### The key of a record and the bytes read back -/

/-- A decoding without error, as an equation. -/
theorem Unmarshal_eq_of_ok (data : Bytes) (p0 : Patient)
    (h : ¬ (Unmarshal data p0).2 ≠ none) :
    Unmarshal data p0 = ((Unmarshal data p0).1, none) := by
  have h2 : (Unmarshal data p0).2 = none := not_not.1 h
  exact Prod.ext rfl h2

/-- The write of a successful `create_patient`: the serialization of a record
that reads back as itself, under the `PatientId` of that record. -/
theorem create_patient_write (stub : Stub) (patientId : Bytes) (age : Int)
    (gender illness : Bytes)
    (hok : (create_patient stub patientId age gender illness).1.2 = none) :
    ∃ p : Patient, Unmarshal (encodePatient p) Patient.zero = (p, none) ∧
      (create_patient stub patientId age gender illness).2 =
        stub.afterPut p.PatientId (encodePatient p) := by
  rw [create_patient_eq] at hok ⊢
  split_ifs at hok ⊢ with h1 h2 h3
  exact ⟨_, Unmarshal_encode_decoded _ _ _ (Unmarshal_eq_of_ok _ _ h2), rfl⟩

/-- The state after `create_patient`: the state before it, or that state with
the serialization of a record that reads back as itself under the `PatientId`
of that record. -/
theorem create_patient_state (stub : Stub) (patientId : Bytes) (age : Int)
    (gender illness : Bytes) :
    (create_patient stub patientId age gender illness).2.state = stub.state ∨
    ∃ p : Patient, Unmarshal (encodePatient p) Patient.zero = (p, none) ∧
      (create_patient stub patientId age gender illness).2.state =
        (stub.afterPut p.PatientId (encodePatient p)).state := by
  by_cases herr : (create_patient stub patientId age gender illness).1.2 = none
  · obtain ⟨p, hp, hs⟩ := create_patient_write stub patientId age gender illness herr
    exact Or.inr ⟨p, hp, by rw [hs]⟩
  · exact Or.inl (create_patient_error_state stub patientId age gender illness herr)

/-- The state after `Invoke`: the state before it, or that state with the
serialization of a record that reads back as itself under the `PatientId` of
that record. -/
theorem Invoke_state (stub : Stub) (function : Bytes) (args : List Bytes) :
    (Invoke stub function args).2.state = stub.state ∨
    ∃ p : Patient, Unmarshal (encodePatient p) Patient.zero = (p, none) ∧
      (Invoke stub function args).2.state =
        (stub.afterPut p.PatientId (encodePatient p)).state := by
  rcases args with _ | ⟨a0, _ | ⟨a1, _ | ⟨a2, _ | ⟨a3, _ | ⟨a4, rest⟩⟩⟩⟩⟩
  · exact Or.inl rfl
  · exact Or.inl rfl
  · exact Or.inl rfl
  · exact Or.inl rfl
  · simp only [Invoke]
    cases ha : Atoi a1 with
    | none => exact Or.inl rfl
    | some age =>
      simp only
      by_cases hf : function = goString "create_patient"
      · rw [if_pos hf]
        exact create_patient_state stub a0 age a2 a3
      · rw [if_neg hf]
        exact Or.inl rfl
  · exact Or.inl rfl

/-- A write of the serialization of a record that reads back as itself, under
the `PatientId` of that record, keeps the invariant of the ledger. -/
theorem KeyIsId_afterPut (stub : Stub) (p : Patient) (h : KeyIsId stub.state)
    (hp : Unmarshal (encodePatient p) Patient.zero = (p, none)) :
    KeyIsId (stub.afterPut p.PatientId (encodePatient p)).state := by
  intro k v hv
  simp only [Stub.afterPut] at hv
  split_ifs at hv with hk
  · injection hv with hv
    subst hv
    exact ⟨p, hp, hk.symm⟩
  · exact h k v hv

/-- Claim C14: the ledger key equals the id field of the record, as an
invariant of the store.  When every value in the store decodes, without error,
to a record whose `PatientId` is the key it is stored under, the same holds of
the store after any call of `Invoke`, whatever the function name and the
arguments and whether the call succeeds or fails. -/
theorem Invoke_preserves_keys (stub : Stub) (function : Bytes) (args : List Bytes)
    (h : KeyIsId stub.state) : KeyIsId (Invoke stub function args).2.state := by
  rcases Invoke_state stub function args with hs | ⟨p, hp, hs⟩
  · rw [hs]
    exact h
  · rw [hs]
    exact KeyIsId_afterPut stub p h hp

/-- Claim C14 on a ledger that holds the record of `p1`: after the creation of
`p2` through `Invoke`, every value in the store still decodes to a record whose
`PatientId` is its key. -/
theorem Invoke_preserves_keys_witness :
    KeyIsId (ledgerWith (goString "p1") (goString
      "\x7b\"patientId\":\"p1\",\"age\":42,\"gender\":\"F\",\"illness\":\"flu\"\x7d")).state ∧
    KeyIsId (Invoke (ledgerWith (goString "p1") (goString
      "\x7b\"patientId\":\"p1\",\"age\":42,\"gender\":\"F\",\"illness\":\"flu\"\x7d"))
      (goString "create_patient")
      [goString "p2", goString "7", goString "M", goString "cold"]).2.state :=
  have h0 : KeyIsId (ledgerWith (goString "p1") (goString
      "\x7b\"patientId\":\"p1\",\"age\":42,\"gender\":\"F\",\"illness\":\"flu\"\x7d")).state := by
    intro k v hv
    simp only [ledgerWith] at hv
    split_ifs at hv with hk
    injection hv with hv
    subst hv
    exact ⟨⟨goString "p1", 42, goString "F", goString "flu"⟩, by decide!, hk.symm⟩
  ⟨h0, Invoke_preserves_keys _ _ _ h0⟩

/-- Claim C18: when the query `getPatientRecord` of an id succeeds, there are
bytes stored under the id and the payload is the `json.Marshal` serialization of
the record `json.Unmarshal` decodes from them, nothing else; and when those
bytes were written by a successful `create_patient`, the payload is those
bytes, byte for byte. -/
theorem Query_payload_reserialized (stub : Stub) (id : Bytes)
    (hok : (Query stub (goString "getPatientRecord") [id]).1.2 = none) :
    ∃ v, stub.state id = some v ∧
      (Query stub (goString "getPatientRecord") [id]).1.1 =
        some (Marshal (Unmarshal v Patient.zero).1).1 ∧
      (writtenByCreate v → (Query stub (goString "getPatientRecord") [id]).1.1 = some v) := by
  rw [Query_one_eq, if_pos rfl] at hok ⊢
  split_ifs at hok ⊢ with h1 h2
  cases hs : stub.state id with
  | none =>
    rw [hs] at h2
    exact absurd (by decide) h2
  | some v =>
    rw [hs] at h2
    refine ⟨v, rfl, rfl, ?_⟩
    rintro ⟨s0, a, age, g, i, key, hc, hw⟩
    obtain ⟨p, hp, hst⟩ := create_patient_write s0 a age g i hc
    rw [hst] at hw
    simp only [Stub.afterPut, List.head?_cons, Option.some.injEq, StubCall.putState.injEq] at hw
    rw [← hw.2]
    simp only [Option.getD_some, hp]

/-- Claim C18 on the ledger that holds, under `p1`, the bytes the creation of
`p1`, 42, `F`, `flu` on the empty ledger writes: the query succeeds, the bytes
were written by a successful `create_patient`, and the payload is those
bytes. -/
theorem Query_payload_reserialized_witness :
    (Query (ledgerWith (goString "p1") (goString
        "\x7b\"patientId\":\"p1\",\"age\":42,\"gender\":\"F\",\"illness\":\"flu\"\x7d"))
        (goString "getPatientRecord") [goString "p1"]).1.2 = none ∧
    writtenByCreate (goString
        "\x7b\"patientId\":\"p1\",\"age\":42,\"gender\":\"F\",\"illness\":\"flu\"\x7d") ∧
    (Query (ledgerWith (goString "p1") (goString
        "\x7b\"patientId\":\"p1\",\"age\":42,\"gender\":\"F\",\"illness\":\"flu\"\x7d"))
        (goString "getPatientRecord") [goString "p1"]).1.1 =
      some (goString
        "\x7b\"patientId\":\"p1\",\"age\":42,\"gender\":\"F\",\"illness\":\"flu\"\x7d") := by
  have hw : writtenByCreate (goString
      "\x7b\"patientId\":\"p1\",\"age\":42,\"gender\":\"F\",\"illness\":\"flu\"\x7d") :=
    ⟨emptyLedger, goString "p1", 42, goString "F", goString "flu", goString "p1",
      by decide!, by decide!⟩
  refine ⟨by decide!, hw, ?_⟩
  obtain ⟨v, hv, _, hpay⟩ := Query_payload_reserialized
    (ledgerWith (goString "p1") (goString
      "\x7b\"patientId\":\"p1\",\"age\":42,\"gender\":\"F\",\"illness\":\"flu\"\x7d"))
    (goString "p1") (by decide!)
  simp only [ledgerWith, if_true, Option.some.injEq] at hv
  subst hv
  exact hpay hw

/-! ### Text that is not well-formed UTF-8 -/

theorem inRange_quote (lo hi : Nat) (h : 0x23 ≤ lo) : inRange 0x22 lo hi = false := by
  have h22 : (0x22 : UInt8).toNat = 0x22 := rfl
  simp only [inRange, h22, Bool.and_eq_false_iff, decide_eq_false_iff_not]
  left
  omega

/-- A quotation mark after the text does not change the first rune of the
text. -/
theorem DecodeRune_append_quote (c : UInt8) (r rest : Bytes) :
    DecodeRune (c :: (r ++ 0x22 :: rest)) = DecodeRune (c :: r) := by
  by_cases h1 : c.toNat < 0x80
  · simp only [DecodeRune, h1, if_true]
  by_cases h2 : 0xC2 ≤ c.toNat ∧ c.toNat ≤ 0xDF
  · rcases r with _ | ⟨b1, r⟩
    · simp only [DecodeRune, h1, h2, if_true, if_false, List.nil_append, and_self,
        inRange_quote 0x80 0xBF (by omega), Bool.false_eq_true]
    · simp only [DecodeRune, h1, h2, if_true, if_false, List.cons_append, and_self]
  by_cases h3 : 0xE0 ≤ c.toNat ∧ c.toNat ≤ 0xEF
  · have hlo : 0x23 ≤ (if c.toNat = 0xE0 then 0xA0 else 0x80) := by split_ifs <;> omega
    rcases r with _ | ⟨b1, _ | ⟨b2, r⟩⟩
    · rcases rest with _ | ⟨q1, rest⟩ <;>
        simp only [DecodeRune, h1, h2, h3, if_true, if_false, List.nil_append, and_self,
          inRange_quote _ _ hlo, Bool.false_and, Bool.false_eq_true]
    · simp only [DecodeRune, h1, h2, h3, if_true, if_false, List.nil_append, List.cons_append,
        and_self, inRange_quote 0x80 0xBF (by omega), Bool.and_false, Bool.false_eq_true]
    · simp only [DecodeRune, h1, h2, h3, if_true, if_false, List.cons_append, and_self]
  by_cases h4 : 0xF0 ≤ c.toNat ∧ c.toNat ≤ 0xF4
  · have hlo : 0x23 ≤ (if c.toNat = 0xF0 then 0x90 else 0x80) := by split_ifs <;> omega
    rcases r with _ | ⟨b1, _ | ⟨b2, _ | ⟨b3, r⟩⟩⟩
    · rcases rest with _ | ⟨q1, _ | ⟨q2, rest⟩⟩ <;>
        simp only [DecodeRune, h1, h2, h3, h4, if_true, if_false, List.nil_append, and_self,
          inRange_quote _ _ hlo, Bool.false_and, Bool.false_eq_true]
    · rcases rest with _ | ⟨q1, rest⟩ <;>
        simp only [DecodeRune, h1, h2, h3, h4, if_true, if_false, List.nil_append,
          List.cons_append, and_self, inRange_quote 0x80 0xBF (by omega), Bool.and_false,
          Bool.false_and, Bool.false_eq_true]
    · simp only [DecodeRune, h1, h2, h3, h4, if_true, if_false, List.nil_append,
        List.cons_append, and_self, inRange_quote 0x80 0xBF (by omega), Bool.and_false,
        Bool.false_eq_true]
    · simp only [DecodeRune, h1, h2, h3, h4, if_true, if_false, List.cons_append, and_self]
  simp only [DecodeRune, h1, h2, h3, h4, if_false]

/-- The width of the first rune is at most the length of the text. -/
theorem DecodeRune_width_le (c : UInt8) (r : Bytes) :
    (DecodeRune (c :: r)).2 ≤ (c :: r).length := by
  by_cases hbad : (DecodeRune (c :: r)).1 = runeError ∧ (DecodeRune (c :: r)).2 = 1
  · rw [hbad.2, List.length_cons]
    omega
  · by_cases h80 : c.toNat < 0x80
    · rw [DecodeRune_ascii c r h80, List.length_cons]
      omega
    · exact (DecodeRune_multibyte c r (by omega) hbad).2.1

/-- Text without quotation mark, backslash and control byte, between quotes,
scans to its coercion to well-formed UTF-8. -/
theorem scanString_coerce : ∀ (fuel : Nat) (S : Bytes), S.length ≤ fuel → unescapedText S →
    ∀ (fuel2 : Nat) (rest : Bytes), S.length < fuel2 →
      scanString fuel2 (S ++ 0x22 :: rest) = some (coerceLoop fuel S, rest) := by
  intro fuel
  induction fuel with
  | zero =>
    intro S hlen _ fuel2 rest hf
    have hS : S = [] := List.length_eq_zero.mp (Nat.le_zero.mp hlen)
    subst hS
    obtain ⟨f2, rfl⟩ : ∃ f2, fuel2 = f2 + 1 := ⟨fuel2 - 1, by simp at hf; omega⟩
    simp [scanString, coerceLoop]
  | succ fuel ih =>
    intro S hlen hplain fuel2 rest hf
    obtain ⟨f2, rfl⟩ : ∃ f2, fuel2 = f2 + 1 := ⟨fuel2 - 1, by omega⟩
    cases S with
    | nil => simp [scanString, coerceLoop]
    | cons c r =>
      obtain ⟨h20, h22, h5c⟩ := hplain c (List.mem_cons_self c r)
      have hn20 : ¬ c.toNat < 0x20 := by omega
      simp only [List.length_cons] at hlen hf
      have hw1 := DecodeRune_width_pos c r
      have hw2 := DecodeRune_width_le c r
      simp only [List.length_cons] at hw2
      have hsub : unescapedText ((c :: r).drop (DecodeRune (c :: r)).2) :=
        fun b hb => hplain b (List.mem_of_mem_drop hb)
      have hl : ((c :: r).drop (DecodeRune (c :: r)).2).length ≤ fuel := by
        simp only [List.length_drop, List.length_cons]; omega
      have hrec := ih _ hl hsub f2 rest (by
        simp only [List.length_drop, List.length_cons]; omega)
      have hdrop : (c :: (r ++ 0x22 :: rest)).drop (DecodeRune (c :: r)).2 =
          (c :: r).drop (DecodeRune (c :: r)).2 ++ 0x22 :: rest := by
        rw [← List.cons_append]
        exact List.drop_append_of_le_length (by simp only [List.length_cons]; omega)
      have hco : coerceLoop (fuel + 1) (c :: r) =
          EncodeRune (DecodeRune (c :: r)).1 ++
            coerceLoop fuel ((c :: r).drop (DecodeRune (c :: r)).2) := rfl
      rw [hco, List.cons_append]
      by_cases h80 : c.toNat < 0x80
      · have hgoal : scanString (f2 + 1) (c :: (r ++ 0x22 :: rest)) =
            emit [c] (scanString f2 (r ++ 0x22 :: rest)) := by
          simp only [scanString, h22, h5c, hn20, h80, if_false, if_true]
        rw [DecodeRune_ascii c r h80] at hrec hdrop ⊢
        have hd1 : (c :: r).drop 1 = r := rfl
        rw [hd1] at hrec
        rw [hgoal, hrec, emit_some, EncodeRune_ascii c h80, hd1]
      · have hgoal : scanString (f2 + 1) (c :: (r ++ 0x22 :: rest)) =
            emit (EncodeRune (DecodeRune (c :: (r ++ 0x22 :: rest))).1)
              (scanString f2 ((c :: (r ++ 0x22 :: rest)).drop
                (DecodeRune (c :: (r ++ 0x22 :: rest))).2)) := by
          simp only [scanString, h22, h5c, hn20, h80, if_false]
        rw [hgoal, DecodeRune_append_quote, hdrop, hrec, emit_some]

/-- Text without quotation mark, backslash and control byte, followed by the
closing quote, is a string literal that reads as the coercion of the text to
well-formed UTF-8. -/
theorem coerced_literal (s : Bytes) (hp : unescapedText s) :
    ∀ rest, parseString ((s ++ [0x22]) ++ rest) = some (toValidUTF8 s, rest) := by
  intro rest
  rw [List.append_assoc]
  unfold parseString toValidUTF8
  exact scanString_coerce s.length s (Nat.le_refl _) hp _ rest (by simp)

/-- The coercion gives well-formed UTF-8. -/
theorem toValidUTF8_valid (s : Bytes) (hp : unescapedText s) :
    utf8Valid (toValidUTF8 s) = true :=
  parseString_valid _ _ _ (coerced_literal s hp [])

/-- The coercion keeps plain text as it is. -/
theorem toValidUTF8_plain (s : Bytes) (hp : plainText s) : toValidUTF8 s = s := by
  have h1 := coerced_literal s hp.2 []
  rw [plain_literal s hp []] at h1
  injection h1 with h1
  injection h1 with h1 _
  exact h1.symm

/-- Decoding the text `create_patient` builds from a plain id and a gender and
an illness without quotation mark, backslash and control byte. -/
theorem Unmarshal_patient_json_coerced (patientId : Bytes) (age : Int)
    (gender illness : Bytes)
    (hid : plainText patientId) (hg : unescapedText gender) (hi : unescapedText illness)
    (hmin : minInt ≤ age) (hmax : age ≤ maxInt) (p : Patient) :
    Unmarshal (patient_json patientId age gender illness) p =
      (⟨patientId, age, toValidUTF8 gender, toValidUTF8 illness⟩, none) := by
  unfold patient_json
  rw [patient_json_eq]
  exact Unmarshal_recordText [0x20] (by decide) _ _ _ _ _ _ age hmin hmax
    (plain_literal _ hid) (coerced_literal _ hg) (coerced_literal _ hi) p

/-- A successful `create_patient` on a plain id and a gender and an illness
without quotation mark, backslash and control byte: it writes, under the id,
the serialization of the record with the gender and the illness coerced to
well-formed UTF-8. -/
theorem create_patient_coerced_ok (stub : Stub) (patientId : Bytes) (age : Int)
    (gender illness : Bytes)
    (hid : plainText patientId) (hg : unescapedText gender) (hi : unescapedText illness)
    (hmin : minInt ≤ age) (hmax : age ≤ maxInt)
    (hok : (create_patient stub patientId age gender illness).1.2 = none) :
    create_patient stub patientId age gender illness =
      ((none, none),
        stub.afterPut patientId
          (encodePatient ⟨patientId, age, toValidUTF8 gender, toValidUTF8 illness⟩)) := by
  have hu := Unmarshal_patient_json_coerced patientId age gender illness hid hg hi hmin hmax
    Patient.zero
  rw [create_patient_eq, hu] at hok ⊢
  split_ifs at hok ⊢
  rfl

/-- The query of an id after a successful `create_patient` on that id, when the
id is plain and the gender and the illness hold no quotation mark, backslash
or control byte, and the read reports no error. -/
theorem Query_after_create_coerced (stub : Stub) (patientId : Bytes) (age : Int)
    (gender illness : Bytes)
    (hid : plainText patientId) (hg : unescapedText gender) (hi : unescapedText illness)
    (hmin : minInt ≤ age) (hmax : age ≤ maxInt)
    (hok : (create_patient stub patientId age gender illness).1.2 = none)
    (hget : (create_patient stub patientId age gender illness).2.getFails
      (create_patient stub patientId age gender illness).2.calls patientId = false) :
    (Query (create_patient stub patientId age gender illness).2 (goString "getPatientRecord")
        [patientId]).1 =
      (some (encodePatient ⟨patientId, age, toValidUTF8 gender, toValidUTF8 illness⟩),
        none) := by
  have h := create_patient_coerced_ok stub patientId age gender illness hid hg hi hmin hmax hok
  rw [h] at hget ⊢
  have hst : (stub.afterPut patientId
      (encodePatient ⟨patientId, age, toValidUTF8 gender, toValidUTF8 illness⟩)).state
      patientId =
      some (encodePatient ⟨patientId, age, toValidUTF8 gender, toValidUTF8 illness⟩) := by
    simp [Stub.afterPut]
  rw [Query_of_encoded _ patientId ⟨patientId, age, toValidUTF8 gender, toValidUTF8 illness⟩
    hget hst hid.1 (toValidUTF8_valid gender hg) (toValidUTF8_valid illness hi) hmin hmax]

/-! ### The record written, and the record written twice -/

/-- Claim C3, as amended: when the id is plain text (well-formed UTF-8 without
quotation mark, backslash or control byte), the gender and the illness hold no
quotation mark, backslash or control byte, and the age is an `int`, a
successful `create_patient` returns a nil payload and no error, and the
resulting ledger is the given one with the id bound to the serialization of the
record of the id, the age, and the gender and the illness coerced to
well-formed UTF-8: every other key keeps its value, and the one write is
recorded.  For a gender and an illness that are well-formed UTF-8 this is the
serialization of the record of the four arguments. -/
theorem create_patient_writes_record (stub : Stub) (patientId : Bytes) (age : Int)
    (gender illness : Bytes)
    (hid : plainText patientId) (hg : unescapedText gender) (hi : unescapedText illness)
    (hmin : minInt ≤ age) (hmax : age ≤ maxInt)
    (hok : (create_patient stub patientId age gender illness).1.2 = none) :
    create_patient stub patientId age gender illness =
      ((none, none),
        stub.afterPut patientId
          (encodePatient ⟨patientId, age, toValidUTF8 gender, toValidUTF8 illness⟩)) ∧
    (create_patient stub patientId age gender illness).2.state patientId =
      some (encodePatient ⟨patientId, age, toValidUTF8 gender, toValidUTF8 illness⟩) ∧
    (∀ k, k ≠ patientId →
      (create_patient stub patientId age gender illness).2.state k = stub.state k) ∧
    (utf8Valid gender = true → utf8Valid illness = true →
      encodePatient ⟨patientId, age, toValidUTF8 gender, toValidUTF8 illness⟩ =
        encodePatient ⟨patientId, age, gender, illness⟩) := by
  have h := create_patient_coerced_ok stub patientId age gender illness hid hg hi hmin hmax hok
  rw [h]
  refine ⟨rfl, by simp [Stub.afterPut], ?_, ?_⟩
  · intro k hk
    simp [Stub.afterPut, hk]
  · intro hvg hvi
    rw [toValidUTF8_plain gender ⟨hvg, hg⟩, toValidUTF8_plain illness ⟨hvi, hi⟩]

/-- Claim C3, as amended, on the empty ledger, the id `p1`, the age 42, the
gender `[0xFF]`, which is not well-formed UTF-8, and the illness `flu`: the
record written has the gender U+FFFD. -/
theorem create_patient_writes_record_witness :
    create_patient emptyLedger (goString "p1") 42 [0xFF] (goString "flu") =
      ((none, none),
        emptyLedger.afterPut (goString "p1")
          (encodePatient ⟨goString "p1", 42, [0xEF, 0xBF, 0xBD], goString "flu"⟩)) := by
  have h := (create_patient_writes_record emptyLedger (goString "p1") 42 [0xFF] (goString "flu")
    ⟨by decide, by decide⟩ (by unfold unescapedText; decide) (by unfold unescapedText; decide)
    (by decide) (by decide) (by decide!)).1
  rw [show toValidUTF8 [0xFF] = [0xEF, 0xBF, 0xBD] from by decide,
    show toValidUTF8 (goString "flu") = goString "flu" from by decide] at h
  exact h

/-- Claim C3 as stated fails.  With the id `[0xFF]`, which is not well-formed
UTF-8, `create_patient` succeeds, leaves the key `[0xFF]` without a value and
binds the key U+FFFD (the bytes EF BF BD), the id of the decoded record.  With
the id `a\\b` (a backslash escape in the hand-built text), `create_patient`
succeeds, leaves the key `a\\b` without a value and binds the key `a\b`. -/
theorem create_patient_writes_other_record :
    ((create_patient emptyLedger [0xFF] 42 (goString "F") (goString "flu")).1 = (none, none) ∧
      (create_patient emptyLedger [0xFF] 42 (goString "F") (goString "flu")).2.state [0xFF] =
        none ∧
      (create_patient emptyLedger [0xFF] 42 (goString "F") (goString "flu")).2.state
          [0xEF, 0xBF, 0xBD] =
        some (encodePatient ⟨[0xEF, 0xBF, 0xBD], 42, goString "F", goString "flu"⟩)) ∧
    ((create_patient emptyLedger (goString "a\\\\b") 42 (goString "F") (goString "flu")).1 =
        (none, none) ∧
      (create_patient emptyLedger (goString "a\\\\b") 42 (goString "F") (goString "flu")).2.state
          (goString "a\\\\b") = none ∧
      (create_patient emptyLedger (goString "a\\\\b") 42 (goString "F") (goString "flu")).2.state
          (goString "a\\b") =
        some (encodePatient ⟨goString "a\\b", 42, goString "F", goString "flu"⟩)) := by
  decide!

/-- Claim C4, as amended: let a first `create_patient` on the id have been made,
with any arguments and any outcome.  When the id is plain text, the gender and
the illness of a second call on the same id hold no quotation mark, backslash
or control byte and its age is an `int`, and the second call succeeds and the
following read of the id reports no error, the query of the id returns the
serialization of the second call's values, the gender and the illness coerced
to well-formed UTF-8; it returns the same payload on the ledger on which only
the second call was made, when that call succeeds and the read reports no
error there.  For a gender and an illness that are well-formed UTF-8 the
payload is the serialization of the second call's values as they are. -/
theorem create_twice_overwrites (stub : Stub) (patientId : Bytes) (age1 : Int)
    (gender1 illness1 : Bytes) (age2 : Int) (gender2 illness2 : Bytes)
    (hid : plainText patientId) (hg : unescapedText gender2) (hi : unescapedText illness2)
    (hmin : minInt ≤ age2) (hmax : age2 ≤ maxInt)
    (h2 : (create_patient (create_patient stub patientId age1 gender1 illness1).2 patientId
      age2 gender2 illness2).1.2 = none)
    (hget : (create_patient (create_patient stub patientId age1 gender1 illness1).2 patientId
        age2 gender2 illness2).2.getFails
      (create_patient (create_patient stub patientId age1 gender1 illness1).2 patientId
        age2 gender2 illness2).2.calls patientId = false) :
    (Query (create_patient (create_patient stub patientId age1 gender1 illness1).2 patientId
        age2 gender2 illness2).2 (goString "getPatientRecord") [patientId]).1 =
      (some (encodePatient ⟨patientId, age2, toValidUTF8 gender2, toValidUTF8 illness2⟩),
        none) ∧
    ((create_patient stub patientId age2 gender2 illness2).1.2 = none →
      (create_patient stub patientId age2 gender2 illness2).2.getFails
        (create_patient stub patientId age2 gender2 illness2).2.calls patientId = false →
      (Query (create_patient stub patientId age2 gender2 illness2).2
          (goString "getPatientRecord") [patientId]).1 =
        (Query (create_patient (create_patient stub patientId age1 gender1 illness1).2
          patientId age2 gender2 illness2).2 (goString "getPatientRecord") [patientId]).1) ∧
    (utf8Valid gender2 = true → utf8Valid illness2 = true →
      encodePatient ⟨patientId, age2, toValidUTF8 gender2, toValidUTF8 illness2⟩ =
        encodePatient ⟨patientId, age2, gender2, illness2⟩) := by
  have hq := Query_after_create_coerced _ patientId age2 gender2 illness2 hid hg hi hmin hmax
    h2 hget
  refine ⟨hq, ?_, ?_⟩
  · intro h2a hgeta
    rw [hq, Query_after_create_coerced stub patientId age2 gender2 illness2 hid hg hi hmin hmax
      h2a hgeta]
  · intro hvg hvi
    rw [toValidUTF8_plain gender2 ⟨hvg, hg⟩, toValidUTF8_plain illness2 ⟨hvi, hi⟩]

/-- Claim C4, as amended, on the empty ledger: `p1`, 42, `F`, `flu` and then
`p1`, 43, the gender `[0xFF]`, which is not well-formed UTF-8, and `cold`: the
query returns the second record, with the gender U+FFFD. -/
theorem create_twice_overwrites_witness :
    (Query (create_patient
        (create_patient emptyLedger (goString "p1") 42 (goString "F") (goString "flu")).2
        (goString "p1") 43 [0xFF] (goString "cold")).2
        (goString "getPatientRecord") [goString "p1"]).1 =
      (some (encodePatient ⟨goString "p1", 43, [0xEF, 0xBF, 0xBD], goString "cold"⟩),
        none) := by
  have h := (create_twice_overwrites emptyLedger (goString "p1") 42 (goString "F")
    (goString "flu") 43 [0xFF] (goString "cold") ⟨by decide, by decide⟩
    (by unfold unescapedText; decide) (by unfold unescapedText; decide)
    (by decide) (by decide) (by decide!) (by decide!)).1
  rw [show toValidUTF8 [0xFF] = [0xEF, 0xBF, 0xBD] from by decide,
    show toValidUTF8 (goString "cold") = goString "cold" from by decide] at h
  exact h

/-- Claim C4 as stated fails.  With the id `[0xFF]`, which is not well-formed
UTF-8, two successive calls succeed and both write under the key U+FFFD (the
bytes EF BF BD): the query of the id `[0xFF]` fails, and returns neither
call's values.  After `p1`, 42, `F`, `flu`, a second call on `p1` whose illness
is `cold", "patientId": "q` succeeds and writes under the key `q`: the query
of `p1` returns the first call's values, and on the ledger without the first
call it fails. -/
theorem create_twice_keeps_first :
    ((create_patient emptyLedger [0xFF] 42 (goString "F") (goString "flu")).1 = (none, none) ∧
      (create_patient
        (create_patient emptyLedger [0xFF] 42 (goString "F") (goString "flu")).2
        [0xFF] 43 (goString "M") (goString "cold")).1 = (none, none) ∧
      (Query (create_patient
          (create_patient emptyLedger [0xFF] 42 (goString "F") (goString "flu")).2
          [0xFF] 43 (goString "M") (goString "cold")).2
          (goString "getPatientRecord") [[0xFF]]).1 =
        (none, some (goString
          "QUERY: Error retrieving Patient GET_PATIENT: Corrupt patient record")) ∧
      (create_patient
          (create_patient emptyLedger [0xFF] 42 (goString "F") (goString "flu")).2
          [0xFF] 43 (goString "M") (goString "cold")).2.state [0xEF, 0xBF, 0xBD] =
        some (encodePatient ⟨[0xEF, 0xBF, 0xBD], 43, goString "M", goString "cold"⟩)) ∧
    ((create_patient emptyLedger (goString "p1") 42 (goString "F") (goString "flu")).1 =
        (none, none) ∧
      (create_patient
        (create_patient emptyLedger (goString "p1") 42 (goString "F") (goString "flu")).2
        (goString "p1") 43 (goString "M") (goString "cold\", \"patientId\": \"q")).1 =
        (none, none) ∧
      (Query (create_patient
          (create_patient emptyLedger (goString "p1") 42 (goString "F") (goString "flu")).2
          (goString "p1") 43 (goString "M") (goString "cold\", \"patientId\": \"q")).2
          (goString "getPatientRecord") [goString "p1"]).1 =
        (some (encodePatient ⟨goString "p1", 42, goString "F", goString "flu"⟩), none) ∧
      (Query (create_patient emptyLedger (goString "p1") 43 (goString "M")
          (goString "cold\", \"patientId\": \"q")).2
          (goString "getPatientRecord") [goString "p1"]).1 =
        (none, some (goString
          "QUERY: Error retrieving Patient GET_PATIENT: Corrupt patient record"))) := by
  decide!

end PatientChaincode
